import Mathlib

/-!
Verification of the auto-stringing optimizer against its specification.

The development shallowly embeds the relevant Python functions of
`solar_stringing_optimizer.py`, `stringer/simple_stringing.py` and
`v2/validatePower.py` as executable Lean functions over `ℚ` (exact
rational arithmetic in place of IEEE floats) and proves or refutes the
frozen claims about them.

The Batteries implementations of `Rat.add`, `Rat.mul`, `Rat.sub` and
`Rat.inv` are marked irreducible, so the kernel cannot evaluate them;
the embedding therefore routes all rational arithmetic through the
kernel-reducible wrappers `qadd`, `qsub`, `qmul`, `qdiv` below, each
proved equal to the corresponding field operation on `ℚ`.
-/

namespace AutoStringing

/-- Kernel-reducible addition on `ℚ`. -/
def qadd (a b : ℚ) : ℚ := mkRat (a.num * b.den + b.num * a.den) (a.den * b.den)

/-- Kernel-reducible subtraction on `ℚ`. -/
def qsub (a b : ℚ) : ℚ := mkRat (a.num * b.den - b.num * a.den) (a.den * b.den)

/-- Kernel-reducible multiplication on `ℚ`. -/
def qmul (a b : ℚ) : ℚ := mkRat (a.num * b.num) (a.den * b.den)

/-- Kernel-reducible division on `ℚ` (division by zero yields zero). -/
def qdiv (a b : ℚ) : ℚ := Rat.divInt (a.num * b.den) (a.den * b.num)

theorem qadd_eq (a b : ℚ) : qadd a b = a + b := by
  conv_rhs => rw [← Rat.num_divInt_den a, ← Rat.num_divInt_den b]
  rw [Rat.divInt_add_divInt _ _ (Int.natCast_ne_zero.2 a.den_nz) (Int.natCast_ne_zero.2 b.den_nz)]
  rw [qadd, Rat.mkRat_eq_divInt]
  push_cast
  ring_nf

theorem qsub_eq (a b : ℚ) : qsub a b = a - b := by
  conv_rhs => rw [← Rat.num_divInt_den a, ← Rat.num_divInt_den b]
  rw [Rat.divInt_sub_divInt _ _ (Int.natCast_ne_zero.2 a.den_nz) (Int.natCast_ne_zero.2 b.den_nz)]
  rw [qsub, Rat.mkRat_eq_divInt]
  push_cast
  ring_nf

theorem qmul_eq (a b : ℚ) : qmul a b = a * b := by
  rw [qmul, Rat.mul_eq_mkRat]

theorem qdiv_eq (a b : ℚ) : qdiv a b = a / b := by
  rw [qdiv, Rat.div_def']

/-- Python `math.floor` on an exact rational, via the computable `Rat.floor`. -/
def pyFloor (q : ℚ) : ℤ := Rat.floor q

/-- Python `math.ceil` on an exact rational (`⌈q⌉ = -⌊-q⌋`). -/
def pyCeil (q : ℚ) : ℤ := -Rat.floor (Rat.neg q)

/-- Python `int(q)`: truncation toward zero. -/
def pyTrunc (q : ℚ) : ℤ :=
  if 0 ≤ q then Rat.floor q else -Rat.floor (Rat.neg q)

/-- Python `round(q)`: round half to even (banker's rounding); the
half-way tie goes to the even neighbour, tested as `f % 2 = 0`. -/
def pyRound (q : ℚ) : ℤ :=
  let f : ℤ := Rat.floor q
  let r : ℚ := qsub q (f : ℚ)
  if r < mkRat 1 2 then f
  else if mkRat 1 2 < r then f + 1
  else if f % 2 = 0 then f else f + 1

/-- Python `round(q, 1)`: round half to even at one decimal place. -/
def pyRound1 (q : ℚ) : ℚ := qdiv (pyRound (qmul q 10) : ℚ) 10

/-- Python slice `xs[:k]` for an integer `k` (negative `k` counts from the end). -/
def pyTake (k : ℤ) (xs : List α) : List α :=
  if 0 ≤ k then xs.take k.toNat
  else xs.take (xs.length - min xs.length (-k).toNat)

/-- The computable `Rat.floor` agrees with the floor of the archimedean order. -/
theorem ratFloor_eq (q : ℚ) : Rat.floor q = ⌊q⌋ := by
  rw [Rat.floor_def', ← Rat.floor_def]

theorem ratNeg_eq (q : ℚ) : Rat.neg q = -q := rfl

theorem pyFloor_eq (q : ℚ) : pyFloor q = ⌊q⌋ := ratFloor_eq q

theorem pyCeil_eq (q : ℚ) : pyCeil q = ⌈q⌉ := by
  unfold pyCeil
  rw [ratNeg_eq, ratFloor_eq, Int.floor_neg, neg_neg]

example : pyTrunc (qdiv 7 2) = 3 := by decide
example : pyTrunc (qdiv (-7) 2) = -3 := by decide
example : pyRound (mkRat 1 2) = 0 := by decide
example : pyRound (mkRat 3 2) = 2 := by decide
example : pyRound (mkRat (-1) 2) = 0 := by decide
example : pyRound (mkRat 17 10) = 2 := by decide
example : pyTake (-1) [1, 2, 3] = [1, 2] := by decide
example : pyCeil (mkRat 5 2) = 3 := by decide
example : qadd (mkRat 1 3) (mkRat 1 6) = mkRat 1 2 := by decide
example : qsub 7 2 = 5 := by decide
example : qmul (mkRat 3 2) 4 = 6 := by decide

/-! ## Generic list utilities

Insertion-ordered dictionaries (Python `dict` / `defaultdict(list)`) are
modelled as association lists: a key's entry sits at the position of the
key's first insertion, matching CPython's guaranteed dict ordering. -/

/-- Append `b` to the entry of key `k`, creating the entry at the end if absent
(`defaultdict(list)[k].append(b)`). -/
def updateAssocAppend [DecidableEq κ] : List (κ × List β) → κ → β → List (κ × List β)
  | [], k, b => [(k, [b])]
  | (k', bs) :: rest, k, b =>
    if k' = k then (k', bs ++ [b]) :: rest else (k', bs) :: updateAssocAppend rest k b

/-- Group a list by a key, preserving first-insertion key order and the
original order inside every group. -/
def groupByKey [DecidableEq κ] (key : β → κ) (xs : List β) : List (κ × List β) :=
  xs.foldl (fun acc b => updateAssocAppend acc (key b) b) []

/-- Set the entry of key `k` to `b`, overwriting an existing entry in place or
appending a new one (`d[k] = b` on a Python dict). -/
def updateAssocSet [DecidableEq κ] : List (κ × β) → κ → β → List (κ × β)
  | [], k, b => [(k, b)]
  | (k', b') :: rest, k, b =>
    if k' = k then (k, b) :: rest else (k', b') :: updateAssocSet rest k b

/-- Lookup with decidable equality (Python `d.get(k)`). -/
def lookupAssoc [DecidableEq κ] (l : List (κ × β)) (k : κ) : Option β :=
  (l.find? (fun e => e.1 = k)).map (·.2)

/-- Exactly `n` consecutive slices of width `L` taken from the front of `xs`
(`[xs[j*L:(j+1)*L] for j in range(n)]`). -/
def takeChunks (L : ℕ) : ℕ → List α → List (List α)
  | 0, _ => []
  | n + 1, xs => xs.take L :: takeChunks L n (xs.drop L)

/-- Fuelled chunking of the whole list into slices of width `c`
(`[xs[i:i+c] for i in range(0, len(xs), c)]` for `c ≥ 1`); `fuel ≥ xs.length`
makes the fuel irrelevant. -/
def chunksGo (c : ℕ) : ℕ → List α → List (List α)
  | _, [] => []
  | 0, _ :: _ => []
  | fuel + 1, x :: xs => (x :: xs).take c :: chunksGo c fuel ((x :: xs).drop c)

/-- Chunk `xs` into slices of width `c ≥ 1`. -/
def chunksBy (c : ℕ) (xs : List α) : List (List α) := chunksGo c xs.length xs

/-- The first element attaining the strict minimum of `f`, scanning left to
right — the semantics of Python's `min(xs, key=f)` and of the repeated
`if d < best: best = d` pattern in the source. -/
def firstMinBy (f : α → ℚ) (xs : List α) : Option α :=
  xs.foldl (fun acc x =>
    match acc with
    | none => some x
    | some b => if f x < f b then some x else some b) none

example : chunksBy 2 [1, 2, 3, 4, 5] = [[1, 2], [3, 4], [5]] := by decide
example : takeChunks 2 2 [1, 2, 3, 4, 5] = [[1, 2], [3, 4]] := by decide
example : groupByKey (· % 3) [3, 1, 4, 6, 7] = [(0, [3, 6]), (1, [1, 4, 7])] := by decide
example : firstMinBy (fun x => (x : ℚ)) [3, 1, 1, 2] = some 1 := by decide

/-! ## Shared data model

`PanelSpecs`, `InverterSpecs` and `TemperatureData` are defined (with
identical fields) in `solar_stringing_optimizer.py` and
`stringer/specs.py`; one Lean structure serves both modules.  The 2-D
`center_coords` tuple is split into `cx`/`cy`. -/

structure PanelSpecs where
  panelId : String
  vocStc : ℚ
  iscStc : ℚ
  vmppStc : ℚ
  imppStc : ℚ
  roofPlaneId : String
  cx : ℚ
  cy : ℚ
deriving DecidableEq, Repr

structure InverterSpecs where
  maxDcVoltage : ℚ
  mpptMinVoltage : ℚ
  mpptMaxVoltage : ℚ
  maxDcCurrentPerMppt : ℚ
  maxDcCurrentPerString : ℚ
  numberOfMppts : ℕ
  startupVoltage : ℚ
  ratedAcPowerW : ℚ
  numberOfInverters : ℕ
deriving DecidableEq, Repr

structure TemperatureData where
  minTempC : ℚ
  maxTempC : ℚ
  avgHighTempC : ℚ
  avgLowTempC : ℚ
deriving DecidableEq, Repr

/-- Fallback panel used where Python would raise `KeyError`/`IndexError` on a
missing id: it keeps the requested id (so id-level bookkeeping stays exact)
and zero electrical/geometric data.  Unreachable along `optimize`'s real data
flow, where every id stems from the input panel list. -/
def defaultPanel (pid : String) : PanelSpecs :=
  { panelId := pid, vocStc := 0, iscStc := 0, vmppStc := 0, imppStc := 0,
    roofPlaneId := "", cx := 0, cy := 0 }

/-- The optimizer's `panel_lookup = {p.panel_id: p for p in panel_specs}`:
on duplicate ids the last occurrence wins; a missing id yields the
id-preserving fallback instead of Python's `KeyError`. -/
def getPanel (panels : List PanelSpecs) (pid : String) : PanelSpecs :=
  match panels.reverse.find? (fun p => p.panelId = pid) with
  | some p => p
  | none => defaultPanel pid

theorem getPanel_panelId (panels : List PanelSpecs) (pid : String) :
    (getPanel panels pid).panelId = pid := by
  unfold getPanel
  cases h : panels.reverse.find? (fun p => p.panelId = pid) with
  | none => rfl
  | some p =>
    have := List.find?_some h
    simpa using this

/-- Squared Euclidean distance between two panel centres.  The source
computes `math.sqrt(...)` and only ever compares distances with each other
or with constant thresholds; since `sqrt` is strictly monotone on
nonnegative reals, every comparison is carried out here on the squares
(thresholds `100.0` and `150.0` become `10000` and `22500`). -/
def distSq (p1 p2 : PanelSpecs) : ℚ :=
  qadd (qmul (qsub p2.cx p1.cx) (qsub p2.cx p1.cx))
       (qmul (qsub p2.cy p1.cy) (qsub p2.cy p1.cy))

namespace Stringer

/-! ## stringer/simple_stringing.py — SimpleStringingOptimizer

Fuelled recursion replaces the source's `while` loops; every fuel
argument is instantiated with a bound that the loop's own progress
argument (at least one element consumed per iteration) makes sufficient,
so the fuel never runs out on the inputs the theorems use. -/

/-- Temperature coefficient of Voc, `-0.00279` (V/°C, negative for silicon). -/
def temp_coeff_voc : ℚ := mkRat (-279) 100000

/-- Temperature coefficient of Vmpp, `-0.00446` (V/°C, negative for silicon). -/
def temp_coeff_vmpp : ℚ := mkRat (-446) 100000

/-- Per-panel Voc at record cold: `voc_stc * (1 + temp_coeff_voc * (min_temp_c - 25))`. -/
def voc_cold (p : PanelSpecs) (temp : TemperatureData) : ℚ :=
  qmul p.vocStc (qadd 1 (qmul temp_coeff_voc (qsub temp.minTempC 25)))

/-- Per-panel Vmpp at record heat: `vmpp_stc * (1 + temp_coeff_vmpp * (max_temp_c - 25))`. -/
def vmpp_hot (p : PanelSpecs) (temp : TemperatureData) : ℚ :=
  qmul p.vmppStc (qadd 1 (qmul temp_coeff_vmpp (qsub temp.maxTempC 25)))

/-- Result of `_calculate_voltage_constraints` (panel counts are Python ints). -/
structure VoltageConstraints where
  maxPanelsPerString : ℤ
  minPanelsPerString : ℤ
  idealPanelsPerString : ℤ
deriving DecidableEq, Repr

/-- `_calculate_voltage_constraints`, using `panel_specs[0]` as representative:
`max = int(max_dc_voltage / voc_cold)`, `min = max(3, int(mppt_min_voltage / vmpp_hot))`,
`ideal = min(9, max)`. -/
def calculate_voltage_constraints (p0 : PanelSpecs) (inv : InverterSpecs)
    (temp : TemperatureData) : VoltageConstraints :=
  let vc := voc_cold p0 temp
  let vh := vmpp_hot p0 temp
  let maxP := pyTrunc (qdiv inv.maxDcVoltage vc)
  { maxPanelsPerString := maxP
    minPanelsPerString := max 3 (pyTrunc (qdiv inv.mpptMinVoltage vh))
    idealPanelsPerString := min 9 maxP }

/-- One scan of the inner `for idx in ungrouped` loop of
`_group_panels_by_proximity`: a panel within (squared) threshold of the
group as grown so far joins the group immediately (the source appends to
`group` while iterating, so later candidates see earlier joiners).
Returns (grown group, survivors, whether anything changed). -/
def proximityPass (thrSq : ℚ) (group ungrouped : List PanelSpecs) :
    List PanelSpecs × List PanelSpecs × Bool :=
  ungrouped.foldl
    (fun acc p =>
      let (g, kept, changed) := acc
      if g.any (fun gp => decide (distSq p gp ≤ thrSq)) then (g ++ [p], kept, true)
      else (g, kept ++ [p], changed))
    (group, [], false)

/-- The `while changed` fixpoint of `_group_panels_by_proximity`. -/
def proximityFix (thrSq : ℚ) : ℕ → List PanelSpecs → List PanelSpecs →
    List PanelSpecs × List PanelSpecs
  | 0, g, u => (g, u)
  | fuel + 1, g, u =>
    let (g', u', changed) := proximityPass thrSq g u
    if changed then proximityFix thrSq fuel g' u' else (g', u')

/-- Outer `while ungrouped` loop of `_group_panels_by_proximity`.  The
`set.pop()` on CPython's set of small consecutive ints yields the smallest
index, i.e. the earliest remaining panel, which is how the set is modelled
here (an ordered list). -/
def groupByProximityGo (thrSq : ℚ) : ℕ → List PanelSpecs → List (List PanelSpecs)
  | 0, _ => []
  | _ + 1, [] => []
  | fuel + 1, p :: rest =>
    let (g, u) := proximityFix thrSq (rest.length + 1) [p] rest
    g :: groupByProximityGo thrSq fuel u

/-- `_group_panels_by_proximity` with its threshold of `100.0` (squared:
`10000`); also the body of `_group_straggler_by_proximity`, which repeats
the identical algorithm with the identical threshold. -/
def group_panels_by_proximity (panels : List PanelSpecs) : List (List PanelSpecs) :=
  groupByProximityGo 10000 (panels.length + 1) panels

/-- Neighbour count of `_find_corner_panel`: other panels (by id) within the
(squared) threshold `100.0` → `10000`. -/
def neighborCount (panels : List PanelSpecs) (p : PanelSpecs) : ℕ :=
  (panels.filter (fun o => decide (o.panelId ≠ p.panelId) && decide (distSq p o ≤ 10000))).length

/-- `_find_corner_panel`: the first panel with strictly fewest neighbours;
`none` on an empty list (where Python would raise `IndexError`, unreachable
from `optimize`). -/
def find_corner_panel (panels : List PanelSpecs) : Option PanelSpecs :=
  match panels with
  | [] => none
  | [p] => some p
  | _ =>
    (panels.foldl
      (fun acc p =>
        let c := neighborCount panels p
        match acc with
        | none => some (p, c)
        | some (b, n) => if c < n then some (p, c) else some (b, n))
      none).map (·.1)

/-- Candidate scan of `_build_string_nearest_neighbor`: over the ids of
`unconnected` minus the current panel, skipping ids already in the string,
keep the first strict-minimum (squared) distance. -/
def closestCandidate (cluster : List PanelSpecs) (current : PanelSpecs)
    (string cands : List String) : Option (String × ℚ) :=
  (cands.filter (fun pid => decide (pid ∉ string))).foldl
    (fun acc pid =>
      let d := distSq current (getPanel cluster pid)
      match acc with
      | none => some (pid, d)
      | some (b, bd) => if d < bd then some (pid, d) else some (b, bd))
    none

/-- Growth loop of `_build_string_nearest_neighbor`: keep appending the
closest unconnected panel while the string is shorter than
`max_panels_per_string` and the jump stays within `150.0` (squared:
`22500`). -/
def buildStringGo (cluster : List PanelSpecs) (maxP : ℤ) :
    ℕ → PanelSpecs → List String → List String → List String
  | 0, _, string, _ => string
  | fuel + 1, current, string, unconnected =>
    if (string.length : ℤ) < maxP then
      let temp := unconnected.erase current.panelId
      match closestCandidate cluster current string temp with
      | some (pid, d) =>
        if d ≤ 22500 then
          buildStringGo cluster maxP fuel (getPanel cluster pid) (string ++ [pid]) unconnected
        else string
      | none => string
    else string

/-- `_build_string_nearest_neighbor`, including the final trim
`string[:ideal_panels_per_string]` when the string overshoots the ideal. -/
def build_string_nearest_neighbor (cluster : List PanelSpecs) (maxP idealP : ℤ)
    (start : PanelSpecs) (unconnected : List String) : List String :=
  let string := buildStringGo cluster maxP (unconnected.length + 1) start [start.panelId] unconnected
  if (string.length : ℤ) > idealP then pyTake idealP string else string

/-- The `while len(unconnected) >= min_panels_per_string` loop of
`_string_cluster`.  `unconnected` is the set of still-free ids, modelled in
cluster order; returns (strings, leftover ids). -/
def stringClusterGo (cluster : List PanelSpecs) (cons : VoltageConstraints) :
    ℕ → List String → List (List String) × List String
  | 0, u => ([], u)
  | fuel + 1, u =>
    if (u.length : ℤ) ≥ cons.minPanelsPerString then
      let remaining := cluster.filter (fun p => decide (p.panelId ∈ u))
      match find_corner_panel remaining with
      | none => ([], u)
      | some start =>
        let s := build_string_nearest_neighbor cluster cons.maxPanelsPerString
          cons.idealPanelsPerString start u
        if (s.length : ℤ) ≥ cons.minPanelsPerString then
          let (rest, u') := stringClusterGo cluster cons fuel (u.filter (fun pid => decide (pid ∉ s)))
          (s :: rest, u')
        else ([], u)
    else ([], u)

/-- `_string_cluster`: returns the cluster's strings and its leftover
(straggler) panels. -/
def string_cluster (cluster : List PanelSpecs) (cons : VoltageConstraints) :
    List (List String) × List PanelSpecs :=
  let (strs, u) := stringClusterGo cluster cons (cluster.length + 1) (cluster.map (·.panelId))
  (strs, cluster.filter (fun p => decide (p.panelId ∈ u)))

/-- Scan of `_absorb_stragglers` picking the closest same-roof string: first
strict-minimum over all (string, member-panel) pairs in order; returns the
index of the winning string. -/
def closestStringIdx (panels : List PanelSpecs) (roofId : String)
    (strings : List (List String)) (straggler : PanelSpecs) : Option ℕ :=
  (strings.enum.foldl
    (fun acc (is : ℕ × List String) =>
      if (getPanel panels (is.2.headD "")).roofPlaneId = roofId then
        is.2.foldl
          (fun acc2 pid =>
            let d := distSq (getPanel panels pid) straggler
            match acc2 with
            | none => some (is.1, d)
            | some (b, bd) => if d < bd then some (is.1, d) else some (b, bd))
          acc
      else acc)
    none).map (·.1)

/-- Append `pid` to the `i`-th string (the in-place `closest_string.append`). -/
def appendToString (strings : List (List String)) (i : ℕ) (pid : String) :
    List (List String) :=
  strings.enum.map (fun is => if is.1 = i then is.2 ++ [pid] else is.2)

/-- `_absorb_stragglers`: try to append every straggler to the closest string
on the same roof plane, provided that string is still below
`max_panels_per_string`; unabsorbed panels stay stragglers.  Earlier
absorptions are visible to later stragglers (the source mutates the shared
string lists). -/
def absorb_stragglers (panels : List PanelSpecs) (maxP : ℤ)
    (strings : List (List String)) (stragglers : List PanelSpecs) :
    List (List String) × List PanelSpecs :=
  stragglers.foldl
    (fun acc straggler =>
      let (strs, still) := acc
      match closestStringIdx panels straggler.roofPlaneId strs straggler with
      | some i =>
        if ((strs.getD i []).length : ℤ) < maxP then
          (appendToString strs i straggler.panelId, still)
        else (strs, still ++ [straggler])
      | none => (strs, still ++ [straggler]))
    (strings, [])

/-- `_get_similar_roof_groups`: roof planes grouped by exact
`(azimuth, pitch)`; the i-th group carries the id `group_i`, modelled by its
index.  `roofPlanes` is the optimizer's `self.roof_planes` in dict order as
`(roof_id, azimuth, pitch)` triples. -/
def similar_roof_groups (roofPlanes : List (String × ℚ × ℚ)) : List (List String) :=
  (groupByKey (fun e => (e.2.1, e.2.2)) roofPlanes).map (fun g => g.2.map (·.1))

/-- The `roof_to_group_map` lookup: index of the similar-roof group holding
the given roof id, `none` when the roof is in no group. -/
def roofToGroup (roofPlanes : List (String × ℚ × ℚ)) (roofId : String) : Option ℕ :=
  (similar_roof_groups roofPlanes).findIdx? (fun g => decide (roofId ∈ g))

/-- Like `closestStringIdx`, but for `_absorb_stragglers_across_similar_roofs`:
the candidate strings are those whose roof plane lies in the given
similar-roof group. -/
def closestStringIdxInGroup (panels : List PanelSpecs)
    (roofPlanes : List (String × ℚ × ℚ)) (grp : ℕ)
    (strings : List (List String)) (straggler : PanelSpecs) : Option ℕ :=
  (strings.enum.foldl
    (fun acc (is : ℕ × List String) =>
      if roofToGroup roofPlanes (getPanel panels (is.2.headD "")).roofPlaneId = some grp then
        is.2.foldl
          (fun acc2 pid =>
            let d := distSq (getPanel panels pid) straggler
            match acc2 with
            | none => some (is.1, d)
            | some (b, bd) => if d < bd then some (is.1, d) else some (b, bd))
          acc
      else acc)
    none).map (·.1)

/-- `_absorb_stragglers_across_similar_roofs`: stragglers whose roof plane is
in no similar-roof group are kept immediately; otherwise absorption works as
in `absorb_stragglers` but against every string of the same group. -/
def absorb_stragglers_across_similar_roofs (panels : List PanelSpecs)
    (roofPlanes : List (String × ℚ × ℚ)) (maxP : ℤ)
    (strings : List (List String)) (stragglers : List PanelSpecs) :
    List (List String) × List PanelSpecs :=
  stragglers.foldl
    (fun acc straggler =>
      let (strs, still) := acc
      match roofToGroup roofPlanes straggler.roofPlaneId with
      | none => (strs, still ++ [straggler])
      | some grp =>
        match closestStringIdxInGroup panels roofPlanes grp strs straggler with
        | some i =>
          if ((strs.getD i []).length : ℤ) < maxP then
            (appendToString strs i straggler.panelId, still)
          else (strs, still ++ [straggler])
        | none => (strs, still ++ [straggler]))
    (strings, [])

/-- Nearest-neighbour walk of `_order_group_by_proximity`: repeatedly move
the first closest remaining panel (`min(remaining, key=...)`, then
`remaining.remove(closest)` — first equal occurrence) after the current one. -/
def nnOrderGo : ℕ → PanelSpecs → List PanelSpecs → List PanelSpecs
  | 0, _, _ => []
  | fuel + 1, current, remaining =>
    match firstMinBy (fun p => distSq current p) remaining with
    | none => []
    | some c => c :: nnOrderGo fuel c (remaining.erase c)

/-- `_order_group_by_proximity`: order a group of panels by the
nearest-neighbour walk starting from its first panel; returns panel ids. -/
def order_group_by_proximity (group : List PanelSpecs) : List String :=
  match group with
  | [] => []
  | [p] => [p.panelId]
  | p :: rest => (p :: nnOrderGo rest.length p rest).map (·.panelId)

/-- `_rebalance_string_group`: if some `i ∈ [2, num_strings]` divides the
total panel count with a quotient inside `[min, max]`, re-order all the
group's panels by proximity and cut them into `i` equal strings; otherwise
return the group unchanged. -/
def rebalance_string_group (panels : List PanelSpecs) (minP maxP : ℤ)
    (strings : List (List String)) : List (List String) :=
  let allPanels := strings.flatten
  let total := allPanels.length
  let num := strings.length
  if num < 2 then strings
  else
    match (List.range' 2 (num - 1)).find?
      (fun i => decide (total % i = 0) &&
        (decide (((total / i : ℕ) : ℤ) ≥ minP) && decide (((total / i : ℕ) : ℤ) ≤ maxP))) with
    | some i =>
      let newLen := total / i
      let ordered := order_group_by_proximity (allPanels.map (getPanel panels))
      takeChunks newLen i ordered
    | none => strings

/-- `_rebalance_strings_for_parallel`: bucket the strings by the
similar-roof group of their roof plane (strings whose roof plane belongs to
no group are not bucketed at all and so vanish from the result), then
rebalance every bucket. -/
def rebalance_strings_for_parallel (panels : List PanelSpecs)
    (roofPlanes : List (String × ℚ × ℚ)) (minP maxP : ℤ)
    (strings : List (List String)) : List (List String) :=
  let byGroup := strings.foldl
    (fun acc s =>
      match roofToGroup roofPlanes (getPanel panels (s.headD "")).roofPlaneId with
      | some g => updateAssocAppend acc g s
      | none => acc)
    ([] : List (ℕ × List (List String)))
  byGroup.flatMap (fun g => rebalance_string_group panels minP maxP g.2)

/-- Chunking `range(0, len(xs), step)` of `_assign_strings_to_mppts`:
`none` models Python's `ValueError: range() arg 3 must not be zero`; a
negative step gives an empty range, hence no chunks. -/
def pyRangeChunks (step : ℤ) (xs : List α) : Option (List (List α)) :=
  if step = 0 then none
  else if step < 0 then some []
  else some (chunksBy step.toNat xs)

/-- `_assign_strings_to_mppts`: group strings by length, derive the parallel
capacity `int(max_dc_current_per_mppt / impp)` from the first string's first
panel, and cut every group into parallel blocks of that size.  A capacity of
exactly `0` (i.e. `impp > max_dc_current_per_mppt`) crashes the source with
`ValueError`, modelled as `none`. -/
def assign_strings_to_mppts (panels : List PanelSpecs) (maxCur : ℚ)
    (strings : List (List String)) : Option (List (List (List String))) :=
  if strings.isEmpty then some []
  else
    (groupByKey List.length strings).foldl
      (fun acc g =>
        match acc with
        | none => none
        | some mppts =>
          match g.2 with
          | [] => some mppts
          | g0 :: _ =>
            let panel := getPanel panels (g0.headD "")
            let maxParallel : ℤ :=
              if 0 < panel.imppStc then pyTrunc (qdiv maxCur panel.imppStc) else 1
            match pyRangeChunks maxParallel g.2 with
            | none => none
            | some chunks => some (mppts ++ chunks))
      (some [])

/-- Nested inverter structure of `_assign_mppts_to_inverters`: an
insertion-ordered dict from the inverter counter to an inner dict from the
local MPPT counter to the MPPT's parallel strings.  The f-string keys
`i{c}` / `i{c}_mppt{local}` are injective images of the counters, so the
counters themselves serve as keys. -/
abbrev InvStruct := List (ℕ × List (ℕ × List (List String)))

/-- Loop of `_assign_mppts_to_inverters`.  Faithful to the source,
`mppt_local_counter` is reset to 1 on a fresh inverter but never
incremented, so within one inverter every MPPT is stored under the same
key, overwriting its predecessor whenever `number_of_mppts ≥ 2`.  With a
cap (`maxInv = some M`, the non-validator mode) the loop stops as soon as
the inverter counter exceeds the cap, silently discarding the remaining
MPPTs. -/
def assignMpptsGo (maxInv : Option ℕ) (mpptsPer : ℕ) :
    List (List (List String)) → ℕ → ℕ → InvStruct → InvStruct
  | [], _, _, invs => invs
  | m :: ms, c, localC, invs =>
    if (match maxInv with | some M => decide (c > M) | none => false) then invs
    else
      let fresh := (lookupAssoc invs c).isNone
      let loc := if fresh then 1 else localC
      let inner := (lookupAssoc invs c).getD []
      let inner' := updateAssocSet inner loc m
      let invs' := updateAssocSet invs c inner'
      let c' := if inner'.length ≥ mpptsPer then c + 1 else c
      assignMpptsGo maxInv mpptsPer ms c' loc invs'

/-- `_assign_mppts_to_inverters`: `max_inverters` is `number_of_inverters`
without a power validator and `float('inf')` (no cap) with one. -/
def assign_mppts_to_inverters (inv : InverterSpecs) (validator : Bool)
    (mppts : List (List (List String))) : InvStruct :=
  let maxInv : Option ℕ := if validator then none else some inv.numberOfInverters
  assignMpptsGo maxInv inv.numberOfMppts mppts 1 1 []

/-- One straggler warning of `_report_stragglers` (the fixed
`reason = "LOW_VOLTAGE_STARTUP"` field is a constant and is omitted). -/
structure StragglerWarning where
  roofId : String
  groupNumber : ℕ
  panelCount : ℕ
  panelIds : List String
  estimatedVoltageV : ℚ
  minRequiredVoltageV : ℚ
  voltageDeficitV : ℚ
deriving DecidableEq, Repr

/-- `_report_stragglers` for one roof plane: group the straggler panels by
proximity (`_group_straggler_by_proximity` repeats the clustering algorithm
verbatim) and emit one warning per group, with the group voltage estimated
from the group's first panel at hot-temperature Vmpp. -/
def report_stragglers (temp : TemperatureData) (startup : ℚ) (roofId : String)
    (stragglerPanels : List PanelSpecs) : List StragglerWarning :=
  (group_panels_by_proximity stragglerPanels).enum.map
    (fun ig =>
      let panel := ig.2.headD (defaultPanel "")
      let groupVoltage := qmul (vmpp_hot panel temp) (ig.2.length : ℚ)
      { roofId := roofId
        groupNumber := ig.1 + 1
        panelCount := ig.2.length
        panelIds := ig.2.map (·.panelId)
        estimatedVoltageV := pyRound1 groupVoltage
        minRequiredVoltageV := pyRound1 startup
        voltageDeficitV := pyRound1 (qsub startup groupVoltage) })

/-- One entry of the final output's `strings` dict (the nested electrical
`properties` record is omitted: no claim references it). -/
structure StringEntry where
  stringId : String
  panelIds : List String
  inverterId : String
  mpptId : String
  roofSection : String
deriving DecidableEq, Repr

/-- The final output's `summary` block (`stringing_efficiency`, a redundant
percentage of `total_panels_stringed / total_panels`, is omitted). -/
structure Summary where
  totalPanels : ℕ
  totalPanelsStringed : ℕ
  totalStrings : ℕ
  totalMpptsUsed : ℕ
  totalInvertersUsed : ℕ
  totalStragglerPanels : ℤ
deriving DecidableEq, Repr

/-- The ConnectionPlan assembled by `_build_final_output`: the flat `strings`
dict, the `summary` block and the `straggler_warnings` list.  The
`inverter_specs` / `mppt_specs` electrical property dicts, the
`preliminary_sizing_check` and the `metadata` block are omitted (no claim
references their contents); `summary.total_mppts_used = len(mppt_specs)` is
computed directly as the number of MPPT entries of the nested structure,
which is exactly the key set of `mppt_specs`. -/
structure Plan where
  strings : List StringEntry
  summary : Summary
  stragglerWarnings : List StragglerWarning
deriving DecidableEq, Repr

/-- The inverter id `i{c}`. -/
def invIdStr (c : ℕ) : String := "i" ++ toString c

/-- The MPPT id `i{c}_mppt{loc}`. -/
def mpptIdStr (c loc : ℕ) : String := "i" ++ toString c ++ "_mppt" ++ toString loc

/-- Second pass of `_build_final_output`: the `strings` dict, keyed
`s1, s2, ...` in nested iteration order. -/
def buildStringEntries (panels : List PanelSpecs) (invs : InvStruct) :
    List StringEntry :=
  (invs.flatMap (fun inv =>
      inv.2.flatMap (fun mppt =>
        mppt.2.map (fun s => (inv.1, mppt.1, s))))).enum.map
    (fun e =>
      { stringId := "s" ++ toString (e.1 + 1)
        panelIds := e.2.2.2
        inverterId := invIdStr e.2.1
        mpptId := mpptIdStr e.2.1 e.2.2.1
        roofSection := (getPanel panels (e.2.2.2.headD "")).roofPlaneId })

/-- `_build_final_output` (restricted to the fields modelled by `Plan`). -/
def build_final_output (panels : List PanelSpecs) (invs : InvStruct)
    (allStrings : List (List String)) (warnings : List StragglerWarning) : Plan :=
  let stringed := (allStrings.map List.length).sum
  { strings := buildStringEntries panels invs
    summary :=
      { totalPanels := panels.length
        totalPanelsStringed := stringed
        totalStrings := allStrings.length
        totalMpptsUsed := (invs.map (fun e => e.2.length)).sum
        totalInvertersUsed := invs.length
        totalStragglerPanels := (panels.length : ℤ) - (stringed : ℤ) }
    stragglerWarnings := warnings }

/-- The result record returned by `optimize` (its `connections` field keeps
the nested inverter structure alongside the formatted plan). -/
structure OptimizationResult where
  connections : InvStruct
  totalPanels : ℕ
  stringLengths : List ℕ
  totalStrings : ℕ
  stringedPanels : ℕ
  formattedOutput : Plan
deriving DecidableEq, Repr

/-- `SimpleStringingOptimizer.optimize`:
cluster → string → absorb stragglers (twice) → report stragglers →
rebalance for parallel → MPPTs → inverters → final output.
`roofPlanes` is the optimizer's `auto_design` roof-plane dict as
`(roof_id, azimuth, pitch)` triples (empty when no auto-design data was
supplied), and `validator` is the `override_inv_quantity` flag that turns
on the power validator.  `none` models a crash: an empty panel list
(`IndexError` in `_calculate_voltage_constraints`) or the
`range(..., 0)` `ValueError` of `_assign_strings_to_mppts`. -/
def optimize (panels : List PanelSpecs) (inv : InverterSpecs)
    (temp : TemperatureData) (roofPlanes : List (String × ℚ × ℚ))
    (validator : Bool) : Option OptimizationResult :=
  match panels with
  | [] => none
  | p0 :: _ =>
    let cons := calculate_voltage_constraints p0 inv temp
    let roofGroups := groupByKey (fun p : PanelSpecs => p.roofPlaneId) panels
    let allClusters := roofGroups.flatMap
      (fun rg => (group_panels_by_proximity rg.2).map (fun c => (c, rg.1)))
    let sortedClusters := List.insertionSort
      (fun a b : List PanelSpecs × String => a.1.length ≥ b.1.length) allClusters
    let step2 := sortedClusters.foldl
      (fun acc cr =>
        let (strs, leftovers) := string_cluster cr.1 cons
        (acc.1 ++ strs, acc.2 ++ leftovers))
      (([], []) : List (List String) × List PanelSpecs)
    let (s2, u2) := absorb_stragglers panels cons.maxPanelsPerString step2.1 step2.2
    let (s3, u3) := absorb_stragglers_across_similar_roofs panels roofPlanes
      cons.maxPanelsPerString s2 u2
    let warnings := (groupByKey (fun p : PanelSpecs => p.roofPlaneId) u3).flatMap
      (fun rg =>
        if ((lookupAssoc roofGroups rg.1).getD []).isEmpty then []
        else report_stragglers temp inv.startupVoltage rg.1 rg.2)
    let s4 := rebalance_strings_for_parallel panels roofPlanes
      cons.minPanelsPerString cons.maxPanelsPerString s3
    match assign_strings_to_mppts panels inv.maxDcCurrentPerMppt s4 with
    | none => none
    | some mppts =>
      let conns := assign_mppts_to_inverters inv validator mppts
      some
        { connections := conns
          totalPanels := panels.length
          stringLengths := s4.map List.length
          totalStrings := s4.length
          stringedPanels := (s4.map List.length).sum
          formattedOutput := build_final_output panels conns s4 warnings }

end Stringer

namespace Sso

/-! ## solar_stringing_optimizer.py — SolarStringingOptimizer -/

/-- A string record (`{'length': ..., 'panels': [...], 'roof_plane': ...,
'type': ...}`); the dict key `type` is rendered `stype`. -/
structure StringData where
  length : ℕ
  panels : List String
  roofPlane : String
  stype : String
deriving DecidableEq, Repr

/-- String-length bounds of `_greedy_string_optimization` (also repeated
verbatim in `_optimize_group_heuristic`), from the cluster's
temperature-adjusted per-panel voltages:
`min_panels = ceil(mppt_min_voltage / min_voltage)`,
`max_panels = min(floor(max_dc_voltage / max_voltage), floor(mppt_max_voltage / min_voltage))`,
`ideal_length = max(min_panels, min(round(0.85 * mppt_max_voltage / min_voltage), max_panels))`.
Returns `(min_panels, max_panels, ideal_length)`. -/
def calc_string_bounds (inv : InverterSpecs) (minVoltage maxVoltage : ℚ) :
    ℤ × ℤ × ℤ :=
  let minPanels := pyCeil (qdiv inv.mpptMinVoltage minVoltage)
  let maxPanelsSafety := pyFloor (qdiv inv.maxDcVoltage maxVoltage)
  let maxPanelsOperational := pyFloor (qdiv inv.mpptMaxVoltage minVoltage)
  let maxPanels := min maxPanelsSafety maxPanelsOperational
  let targetVoltage := qmul inv.mpptMaxVoltage (mkRat 85 100)
  let ideal0 := pyRound (qdiv targetVoltage minVoltage)
  (minPanels, maxPanels, max minPanels (min ideal0 maxPanels))

/-- Descending scan `for string_length in range(max_panels, min_panels - 1, -1)`
of `_handle_remainder_with_modulus`: the largest `L` with
`minP ≤ L ≤ cur` and `L ≤ count`, if any. -/
def findLenDesc (minP count : ℕ) (cur : ℕ) : Option ℕ :=
  if cur < minP then none
  else if h : count ≥ cur then some cur
  else findLenDesc minP count (cur - 1)
termination_by cur
decreasing_by omega

/-- The `for i in range(num_strings)` slicing loops shared by
`_create_modulus_strings` and `_handle_remainder_with_modulus`: `n`
consecutive slices of width `L` turned into string records of the given
`type`. -/
def mkChunkStrings (L n : ℕ) (panels : List PanelSpecs) (roof ty : String) :
    List StringData :=
  (takeChunks L n panels).map (fun ps =>
    { length := L, panels := ps.map (·.panelId), roofPlane := roof, stype := ty })

/-- Body of `_handle_remainder_with_modulus` once the feasible length `L`
has been found: `num_strings = count // L` full strings, then either one
`modulus_remainder` string (sub-remainder ≥ `min_panels`), stragglers
(positive sub-remainder below `min_panels`), or nothing. -/
def handleRemainderFound (panels : List PanelSpecs) (roof : String) (minP L : ℕ) :
    List StringData × List PanelSpecs :=
  if panels.length % L > 0 then
    if panels.length % L ≥ minP then
      (mkChunkStrings L (panels.length / L) panels roof ("modulus_" ++ toString L) ++
        [{ length := panels.length % L
           panels := (panels.drop (panels.length / L * L)).map (·.panelId)
           roofPlane := roof
           stype := "modulus_remainder_" ++ toString (panels.length % L) }], [])
    else (mkChunkStrings L (panels.length / L) panels roof ("modulus_" ++ toString L),
      panels.drop (panels.length / L * L))
  else (mkChunkStrings L (panels.length / L) panels roof ("modulus_" ++ toString L), [])

/-- `_handle_remainder_with_modulus`: cut the remainder into strings of the
largest feasible length; a final sub-remainder of at least `min_panels`
becomes one more string, a smaller one becomes stragglers; when no feasible
length exists all panels become stragglers.  (With `min_panels = 0` and
`max_panels = 0` Python would pick `string_length = 0` and crash on
division by zero; the claims' hypotheses require `1 ≤ min_panels`.) -/
def handle_remainder_with_modulus (panels : List PanelSpecs) (minP maxP : ℕ) :
    List StringData × List PanelSpecs :=
  match panels with
  | [] => ([], [])
  | p0 :: ps =>
    match findLenDesc minP (p0 :: ps).length maxP with
    | none => ([], p0 :: ps)
    | some L => handleRemainderFound (p0 :: ps) p0.roofPlaneId minP L

/-- `_create_modulus_strings`: `panel_count = q * ideal_length + r`; `q` full
strings of exactly `ideal_length`, the remainder `r` delegated to
`_handle_remainder_with_modulus`. -/
def create_modulus_strings (panels : List PanelSpecs) (ideal minP maxP : ℕ) :
    List StringData × List PanelSpecs :=
  match panels with
  | [] => ([], [])
  | p0 :: ps =>
    if (p0 :: ps).length % ideal > 0 then
      (mkChunkStrings ideal ((p0 :: ps).length / ideal) (p0 :: ps)
          p0.roofPlaneId "modulus_ideal" ++
        (handle_remainder_with_modulus
          ((p0 :: ps).drop ((p0 :: ps).length / ideal * ideal)) minP maxP).1,
       (handle_remainder_with_modulus
          ((p0 :: ps).drop ((p0 :: ps).length / ideal * ideal)) minP maxP).2)
    else (mkChunkStrings ideal ((p0 :: ps).length / ideal) (p0 :: ps)
      p0.roofPlaneId "modulus_ideal", [])

/-- Ascending-lexicographic order on `(cy, cx)` used by the
`sort(key=lambda p: (p.center_coords[1], p.center_coords[0]))` calls. -/
def lexYX (p q : PanelSpecs) : Prop :=
  p.cy < q.cy ∨ (p.cy = q.cy ∧ p.cx ≤ q.cx)

instance : DecidableRel lexYX := fun p q => by
  unfold lexYX
  infer_instance

/-- Tail of `_handle_stragglers` for fewer than three remaining panels:
pair them up (`straggler_pair`); a lone leftover is wired to the closest
other panel of the same roof plane (`straggler_connected`) or kept alone
(`single_panel`). -/
def pairUpStragglers (allPanels : List PanelSpecs) (roofId : String) :
    List PanelSpecs → List StringData
  | [] => []
  | [p] =>
    let roofOthers := allPanels.filter
      (fun q => decide (q.roofPlaneId = roofId) && decide (q.panelId ≠ p.panelId))
    match firstMinBy (fun q => distSq p q) roofOthers with
    | some closest =>
      [{ length := 2, panels := [p.panelId, closest.panelId], roofPlane := roofId,
         stype := "straggler_connected" }]
    | none =>
      [{ length := 1, panels := [p.panelId], roofPlane := roofId,
         stype := "single_panel" }]
  | p :: q :: rest =>
    { length := 2, panels := [p.panelId, q.panelId], roofPlane := roofId,
      stype := "straggler_pair" } :: pairUpStragglers allPanels roofId rest

/-- The per-roof `while panel_index < len(roof_stragglers)` loop of
`_handle_stragglers` (its hardcoded `min_panels = 3`, `max_panels = 9`):
chunks of `min(remaining, 9)` while at least 3 panels remain, then the
pairing tail. -/
def stragglerStringsGo (allPanels : List PanelSpecs) (roofId : String) :
    ℕ → List PanelSpecs → List StringData
  | 0, _ => []
  | fuel + 1, ps =>
    if ps.length ≥ 3 then
      let L := min ps.length 9
      { length := L, panels := (ps.take L).map (·.panelId), roofPlane := roofId,
        stype := "straggler_string" } ::
        stragglerStringsGo allPanels roofId fuel (ps.drop L)
    else pairUpStragglers allPanels roofId ps

/-- `_handle_stragglers`: group stragglers by roof plane, sort each roof's
stragglers by `(y, x)` and convert them to explicitly-typed straggler
strings.  (The `existing_strings` parameter of the source is unused by the
function body and is omitted.)  The caller
(`_greedy_string_optimization`, step 2.5) extends the main string list with
this result before MPPT assignment. -/
def handle_stragglers (allPanels : List PanelSpecs)
    (stragglers : List PanelSpecs) : List StringData :=
  if stragglers.isEmpty then []
  else
    (groupByKey (fun p : PanelSpecs => p.roofPlaneId) stragglers).flatMap
      (fun rg =>
        let sorted := List.insertionSort lexYX rg.2
        stragglerStringsGo allPanels rg.1 (sorted.length + 1) sorted)

/-- Parallel-attach scan of `_greedy_mppt_assignment`: the first MPPT that
already holds a string of the same length and whose current check
`(count_of_same_length + 1) * panel_isc ≤ max_dc_current_per_mppt` passes
(note: the source uses the panels' short-circuit current `isc_stc`, not
`impp_stc`). -/
def tryAddParallel (isc maxCur : ℚ) (s : StringData) :
    List (List StringData) → Option (List (List StringData))
  | [] => none
  | m :: ms =>
    let same := m.filter (fun x => x.length = s.length)
    if (¬ same.isEmpty) ∧ qmul (mkRat (same.length + 1) 1) isc ≤ maxCur then
      some ((m ++ [s]) :: ms)
    else (tryAddParallel isc maxCur s ms).map (m :: ·)

/-- The MPPT list built by `_greedy_mppt_assignment`: strings sorted by
descending length (Python's stable `sort(key=len, reverse=True)`), each
string added in parallel to the first admitting MPPT, else opening a new
MPPT.  (The function's other output — the `connections` dict and the
inverter tally — is derived from this list and modelled elsewhere.) -/
def greedy_mppt_assignment (isc maxCur : ℚ) (strings : List StringData) :
    List (List StringData) :=
  let sorted := List.insertionSort
    (fun a b : StringData => a.length ≥ b.length) strings
  sorted.foldl
    (fun mppts s =>
      match tryAddParallel isc maxCur s mppts with
      | some r => r
      | none => mppts ++ [[s]])
    []

/-- Modelled from the spec: the MPPT packer as §4.6 words it, identical to
`greedy_mppt_assignment` except that the parallel current check uses the
per-panel operating current `impp` ("existing strings' Impp count ×
per-panel Impp, plus the new string") instead of the source's `isc_stc`.
Kept only to compare against the implementation. -/
def mpptPackerSpecImpp (impp maxCur : ℚ) (strings : List StringData) :
    List (List StringData) :=
  let sorted := List.insertionSort
    (fun a b : StringData => a.length ≥ b.length) strings
  sorted.foldl
    (fun mppts s =>
      match tryAddParallel impp maxCur s mppts with
      | some r => r
      | none => mppts ++ [[s]])
    []

/-- A panel object together with its `is_assigned` attribute, which
`_create_contiguous_strings` sets in place on the shared `PanelSpecs`
objects (`getattr(p, 'is_assigned', False)` reads it, so a missing
attribute is the `false` state). -/
structure PanelState where
  spec : PanelSpecs
  isAssigned : Bool
deriving DecidableEq, Repr

/-- `_find_next_seed`: among the unassigned panels, the first one in
ascending `(y, x)` order (Python's stable sort then `[0]`). -/
def find_next_seed (panels : List PanelState) : Option PanelState :=
  (panels.filter (fun st => !st.isAssigned)).foldl
    (fun acc st =>
      match acc with
      | none => some st
      | some b =>
        if lexYX st.spec b.spec ∧ ¬ lexYX b.spec st.spec then some st else some b)
    none

/-- `_find_closest_unassigned_neighbor`: first strict-minimum distance over
the unassigned panels — including the reference panel itself when it is
still unmarked, exactly as in the source. -/
def find_closest_unassigned_neighbor (ref : PanelSpecs)
    (panels : List PanelState) : Option PanelState :=
  firstMinBy (fun st => distSq ref st.spec) (panels.filter (fun st => !st.isAssigned))

/-- The fixed-iteration growth loop (`for _ in range(target_length - 1)`) of
`_grow_contiguous_string`. -/
def growContiguousGo (panels : List PanelState) (maxP : ℕ) :
    ℕ → List PanelSpecs → PanelSpecs → List PanelSpecs
  | 0, cur, _ => cur
  | k + 1, cur, last =>
    match find_closest_unassigned_neighbor last panels with
    | none => cur
    | some c =>
      if cur.length ≥ maxP then cur
      else growContiguousGo panels maxP k (cur ++ [c.spec]) c.spec

/-- `_grow_contiguous_string`: grow from the seed towards
`min(ideal_length, max_panels)` panels. -/
def grow_contiguous_string (seed : PanelSpecs) (panels : List PanelState)
    (ideal maxP : ℕ) : List PanelSpecs :=
  growContiguousGo panels maxP (min ideal maxP - 1) [seed] seed

/-- Set `is_assigned = True` on every panel whose id occurs in `ids`. -/
def markAssigned (panels : List PanelState) (ids : List String) : List PanelState :=
  panels.map (fun st =>
    if st.spec.panelId ∈ ids then { st with isAssigned := true } else st)

/-- The `while True` loop of `_create_contiguous_strings`: find a seed, stop
when fewer than `min_panels` panels remain (the nested
`if len(remaining) >= min_panels` under the opposite guard is dead code),
grow a string, and either record it (marking its panels assigned) or mark
just the seed to avoid an infinite loop. -/
def createContiguousGo (ideal minP maxP : ℕ) :
    ℕ → List PanelState → List StringData → List StringData × List PanelState
  | 0, ps, strs => (strs, ps)
  | fuel + 1, ps, strs =>
    match find_next_seed ps with
    | none => (strs, ps)
    | some seedSt =>
      let remaining := ps.filter (fun st => !st.isAssigned)
      if remaining.length < minP then (strs, ps)
      else
        let cur := grow_contiguous_string seedSt.spec ps ideal maxP
        if cur.length ≥ minP then
          let sd : StringData :=
            { length := cur.length, panels := cur.map (·.panelId),
              roofPlane := (cur.headD (defaultPanel "")).roofPlaneId,
              stype := "contiguous" }
          createContiguousGo ideal minP maxP fuel
            (markAssigned ps (cur.map (·.panelId))) (strs ++ [sd])
        else
          createContiguousGo ideal minP maxP fuel
            (markAssigned ps [seedSt.spec.panelId]) strs

/-- `_create_contiguous_strings`: first sets `is_assigned = False` on every
panel of the (shared) input list, then runs the seed-and-grow loop.
Returns the strings together with the panel objects' final state. -/
def create_contiguous_strings (panels : List PanelState) (ideal minP maxP : ℕ) :
    List StringData × List PanelState :=
  let ps0 := panels.map (fun st => { st with isAssigned := false })
  createContiguousGo ideal minP maxP (panels.length + 1) ps0 []

end Sso

namespace V2

/-! ## v2/validatePower.py — PowerValidator -/

/-- The state computed by `PowerValidator.__init__`.  The attributes
`target_dc_ac_ratio` / `max_dc_ac_ratio` are rendered `targetDcAc` /
`maxDcAc`.  Note the source's `temp_coeff_vmpp = 0.00446` is positive —
unlike the `-0.00446` ("negative for silicon") used by every other module
— so `vmpp_hot` here rises with temperature. -/
structure PowerValidator where
  powerPerPanel : ℚ
  inverterAcPower : ℚ
  targetDcPowerPerInverter : ℚ
  maxDcPowerPerInverter : ℚ
  targetDcAc : ℚ
  maxDcAc : ℚ
deriving DecidableEq, Repr

/-- `PowerValidator.__init__` with explicit target/max DC:AC quotients
(defaults 1.25 / 1.5 at every call site). -/
def mkPowerValidator (inv : InverterSpecs) (panel : PanelSpecs)
    (temp : TemperatureData) (targetR maxR : ℚ) : PowerValidator :=
  let coeff : ℚ := mkRat 446 100000
  let vmppHotV := qmul panel.vmppStc (qadd 1 (qmul coeff (qsub temp.maxTempC 25)))
  let ppp := qmul vmppHotV panel.imppStc
  { powerPerPanel := ppp
    inverterAcPower := inv.ratedAcPowerW
    targetDcPowerPerInverter := qmul inv.ratedAcPowerW targetR
    maxDcPowerPerInverter := qmul inv.ratedAcPowerW maxR
    targetDcAc := targetR
    maxDcAc := maxR }

/-- Result of `validate_string_assignment` (the rounded display fields and
reason/action strings are omitted; `recommended_split_index` is only present
on the invalid branch). -/
structure ValidationResult where
  valid : Bool
  stringPowerW : ℚ
  newTotalPowerW : ℚ
  exceedsTarget : Bool
  exceedsMax : Bool
  recommendedSplitIndex : Option ℤ
deriving DecidableEq, Repr

/-- `PowerValidator.validate_string_assignment`: valid iff the new total
stays ≤ `max_dc_power_per_inverter`; when invalid, the recommended split is
`max(1, min(string_panel_count // 2, int(remaining_capacity / power_per_panel)))`. -/
def validate_string_assignment (pv : PowerValidator) (stringPanelCount : ℕ)
    (currentInverterDcPower : ℚ) : ValidationResult :=
  let stringPower := qmul (mkRat stringPanelCount 1) pv.powerPerPanel
  let newTotal := qadd currentInverterDcPower stringPower
  let exceedsTarget := decide (newTotal > pv.targetDcPowerPerInverter)
  let exceedsMax := decide (newTotal > pv.maxDcPowerPerInverter)
  if exceedsMax then
    let remaining := qsub pv.maxDcPowerPerInverter currentInverterDcPower
    let fits := pyTrunc (qdiv remaining pv.powerPerPanel)
    let recommended : ℤ := min ((stringPanelCount : ℤ) / 2) fits
    { valid := false, stringPowerW := stringPower, newTotalPowerW := newTotal,
      exceedsTarget := exceedsTarget, exceedsMax := exceedsMax,
      recommendedSplitIndex := some (max 1 recommended) }
  else
    { valid := true, stringPowerW := stringPower, newTotalPowerW := newTotal,
      exceedsTarget := exceedsTarget, exceedsMax := exceedsMax,
      recommendedSplitIndex := none }

/-- The ideal-length shrink of `v2/simple_stringing.py::optimize` (lines
275-283): `ideal = min(ideal, int(max_dc_power_per_inverter / power_per_panel))`. -/
def adjusted_ideal_length (pv : PowerValidator) (ideal : ℤ) : ℤ :=
  min ideal (pyTrunc (qdiv pv.maxDcPowerPerInverter pv.powerPerPanel))

end V2

/-! ## Helper lemmas on the list utilities -/

theorem flatten_takeChunks (L : ℕ) :
    ∀ (n : ℕ) (xs : List α), (takeChunks L n xs).flatten = xs.take (n * L) := by
  intro n
  induction n with
  | zero => intro xs; simp [takeChunks]
  | succ k ih =>
    intro xs
    simp only [takeChunks, List.flatten_cons, ih]
    rw [← List.take_add]
    congr 1
    ring

theorem takeChunks_length_eq (L : ℕ) :
    ∀ (n : ℕ) (xs : List α), n * L ≤ xs.length →
      ∀ c ∈ takeChunks L n xs, c.length = L := by
  intro n
  induction n with
  | zero => intro xs _ c hc; simp [takeChunks] at hc
  | succ k ih =>
    intro xs hlen c hc
    rw [Nat.succ_mul] at hlen
    simp only [takeChunks, List.mem_cons] at hc
    rcases hc with rfl | hc
    · rw [List.length_take, Nat.min_eq_left (by omega : L ≤ xs.length)]
    · refine ih (xs.drop L) ?_ c hc
      rw [List.length_drop]
      omega

theorem flatten_chunksGo (c : ℕ) (hc : 1 ≤ c) :
    ∀ (fuel : ℕ) (xs : List α), xs.length ≤ fuel →
      (chunksGo c fuel xs).flatten = xs := by
  intro fuel
  induction fuel with
  | zero =>
    intro xs hxs
    match xs, hxs with
    | [], _ => rfl
  | succ k ih =>
    intro xs hxs
    match xs with
    | [] => rfl
    | x :: rest =>
      simp only [chunksGo, List.flatten_cons]
      rw [ih ((x :: rest).drop c)
        (by
          rw [List.length_drop]
          simp only [List.length_cons] at hxs ⊢
          omega)]
      exact List.take_append_drop c (x :: rest)

theorem flatten_chunksBy (c : ℕ) (hc : 1 ≤ c) (xs : List α) :
    (chunksBy c xs).flatten = xs :=
  flatten_chunksGo c hc xs.length xs le_rfl

theorem chunksGo_length_le (c : ℕ) :
    ∀ (fuel : ℕ) (xs : List α), ∀ ch ∈ chunksGo c fuel xs, ch.length ≤ c := by
  intro fuel
  induction fuel with
  | zero =>
    intro xs ch hch
    match xs with
    | [] => simp [chunksGo] at hch
    | _ :: _ => simp [chunksGo] at hch
  | succ k ih =>
    intro xs ch hch
    match xs with
    | [] => simp [chunksGo] at hch
    | x :: rest =>
      simp only [chunksGo, List.mem_cons] at hch
      rcases hch with rfl | hch
      · rw [List.length_take]; omega
      · exact ih _ ch hch

/-- `updateAssocAppend` either extends one group in place or appends a new
singleton group, so the concatenation of all groups gains exactly `b` (up to
position). -/
theorem updateAssocAppend_flatMap_perm [DecidableEq κ]
    (acc : List (κ × List β)) (k : κ) (b : β) :
    ((updateAssocAppend acc k b).flatMap (·.2)).Perm (acc.flatMap (·.2) ++ [b]) := by
  induction acc with
  | nil => simp [updateAssocAppend]
  | cons hd tl ih =>
    obtain ⟨k', bs⟩ := hd
    by_cases hk : k' = k
    · simp only [updateAssocAppend, if_pos hk, List.flatMap_cons]
      rw [List.append_assoc, List.append_assoc]
      exact List.Perm.append_left bs List.perm_append_comm
    · simp only [updateAssocAppend, if_neg hk, List.flatMap_cons]
      rw [List.append_assoc]
      exact List.Perm.append_left bs ih

/-- A fold inserting (conditionally) into groups: the grouped contents are a
permutation of the kept inputs appended to the initial contents. -/
theorem foldlGroup_flatMap_perm [DecidableEq κ] (key : β → κ) (keep : β → Bool)
    (xs : List β) :
    ∀ acc : List (κ × List β),
      ((xs.foldl (fun a s => if keep s then updateAssocAppend a (key s) s else a)
        acc).flatMap (·.2)).Perm
      (acc.flatMap (·.2) ++ xs.filter keep) := by
  induction xs with
  | nil => intro acc; simp
  | cons x rest ih =>
    intro acc
    simp only [List.foldl_cons]
    by_cases hx : keep x
    · rw [if_pos hx]
      refine (ih _).trans ?_
      rw [List.filter_cons, if_pos hx]
      refine ((updateAssocAppend_flatMap_perm acc (key x) x).append_right _).trans ?_
      rw [List.append_assoc]
      exact List.Perm.refl _
    · rw [if_neg hx]
      refine (ih _).trans ?_
      rw [List.filter_cons, if_neg hx]

/-- Elements stored in the groups of `groupByKey` come from the input list. -/
theorem groupByKey_mem [DecidableEq κ] (key : β → κ) (xs : List β) :
    ∀ g ∈ groupByKey key xs, ∀ b ∈ g.2, b ∈ xs := by
  have step : ∀ (acc : List (κ × List β)) (y : β),
      (∀ g ∈ acc, ∀ b ∈ g.2, b ∈ xs) → y ∈ xs →
      ∀ g ∈ updateAssocAppend acc (key y) y, ∀ b ∈ g.2, b ∈ xs := by
    intro acc y hacc hy
    induction acc with
    | nil =>
      intro g' hg' b hb
      simp only [updateAssocAppend, List.mem_singleton] at hg'
      rw [hg'] at hb
      simp only [List.mem_singleton] at hb
      rwa [hb]
    | cons hd tl ihacc =>
      obtain ⟨k', bs⟩ := hd
      intro g' hg' b hb
      by_cases hk : k' = key y
      · simp only [updateAssocAppend, if_pos hk] at hg'
        rcases List.mem_cons.1 hg' with rfl | hmem
        · rcases List.mem_append.1 hb with hb1 | hb2
          · exact hacc (k', bs) (List.mem_cons_self _ _) b hb1
          · simp only [List.mem_singleton] at hb2; rwa [hb2]
        · exact hacc g' (List.mem_cons_of_mem _ hmem) b hb
      · simp only [updateAssocAppend, if_neg hk] at hg'
        rcases List.mem_cons.1 hg' with rfl | hmem
        · exact hacc (k', bs) (List.mem_cons_self _ _) b hb
        · exact ihacc (fun g hgtl => hacc g (List.mem_cons_of_mem _ hgtl)) g' hmem b hb
  have main : ∀ (ys : List β) (acc : List (κ × List β)),
      (∀ g ∈ acc, ∀ b ∈ g.2, b ∈ xs) → (∀ y ∈ ys, y ∈ xs) →
      ∀ g ∈ ys.foldl (fun a s => updateAssocAppend a (key s) s) acc, ∀ b ∈ g.2, b ∈ xs := by
    intro ys
    induction ys with
    | nil =>
      intro acc hacc _ g hg
      exact hacc g hg
    | cons y rest ih =>
      intro acc hacc hys g hg
      exact ih _ (step acc y hacc (hys y (List.mem_cons_self _ _)))
        (fun z hz => hys z (List.mem_cons_of_mem _ hz)) g hg
  intro g hg
  exact main xs [] (by simp) (fun y hy => hy) g hg

/-! ## Lemmas on the modulus partitioner (solar_stringing_optimizer.py) -/

namespace Sso

theorem findLenDesc_some (minP count : ℕ) :
    ∀ cur L, findLenDesc minP count cur = some L →
      minP ≤ L ∧ L ≤ cur ∧ L ≤ count := by
  intro cur
  induction cur using Nat.strong_induction_on with
  | _ cur ih =>
    intro L hL
    rw [findLenDesc] at hL
    by_cases h1 : cur < minP
    · rw [if_pos h1] at hL
      exact absurd hL (by simp)
    · rw [if_neg h1] at hL
      by_cases h2 : count ≥ cur
      · rw [dif_pos h2] at hL
        have heq : cur = L := Option.some.inj hL
        subst heq
        exact ⟨by omega, le_refl _, h2⟩
      · rw [dif_neg h2] at hL
        obtain ⟨a, b, c⟩ := ih (cur - 1) (by omega) L hL
        exact ⟨a, by omega, c⟩

theorem findLenDesc_none (minP count : ℕ) :
    ∀ cur, minP ≤ cur → findLenDesc minP count cur = none → count < minP := by
  intro cur
  induction cur using Nat.strong_induction_on with
  | _ cur ih =>
    intro hcur hnone
    rw [findLenDesc] at hnone
    by_cases h1 : cur < minP
    · omega
    · rw [if_neg h1] at hnone
      by_cases h2 : count ≥ cur
      · rw [dif_pos h2] at hnone
        exact absurd hnone (by simp)
      · rw [dif_neg h2] at hnone
        by_cases hlow : minP ≤ cur - 1
        · exact ih (cur - 1) (by omega) hlow hnone
        · omega

/-- Chunks mapped into string records: the concatenated panel-id lists are
exactly the ids of the first `n * L` panels. -/
theorem flatMap_panels_of_chunks (L n : ℕ) (xs : List PanelSpecs)
    (f : List PanelSpecs → StringData)
    (hf : ∀ ps, (f ps).panels = ps.map (·.panelId)) :
    ((takeChunks L n xs).map f).flatMap (·.panels) =
      (xs.take (n * L)).map (·.panelId) := by
  have h1 : ((takeChunks L n xs).map f).flatMap (·.panels) =
      (takeChunks L n xs).flatMap (fun ps => ps.map (·.panelId)) := by
    rw [List.flatMap_map]
    exact List.flatMap_congr (fun ps _ => hf ps)
  rw [h1]
  have h2 : (takeChunks L n xs).flatMap (fun ps => ps.map (·.panelId)) =
      ((takeChunks L n xs).flatten).map (·.panelId) := by
    induction takeChunks L n xs with
    | nil => simp
    | cons c cs ihc => simp [ihc]
  rw [h2, flatten_takeChunks]

theorem mkChunkStrings_flatMap (L n : ℕ) (panels : List PanelSpecs)
    (roof ty : String) :
    (mkChunkStrings L n panels roof ty).flatMap (·.panels) =
      (panels.take (n * L)).map (·.panelId) :=
  flatMap_panels_of_chunks L n panels _ (fun _ => rfl)

theorem mkChunkStrings_mem (L n : ℕ) (panels : List PanelSpecs) (roof ty : String)
    (hn : n * L ≤ panels.length) :
    ∀ s ∈ mkChunkStrings L n panels roof ty,
      s.length = L ∧ s.panels.length = L ∧ s.stype = ty := by
  intro s hs
  obtain ⟨chunk, hchunk, rfl⟩ := List.mem_map.1 hs
  have hclen := takeChunks_length_eq L n panels hn chunk hchunk
  exact ⟨rfl, by simp [hclen], rfl⟩

theorem handleRemainderFound_join (panels : List PanelSpecs) (roof : String)
    (minP L : ℕ) :
    ((handleRemainderFound panels roof minP L).1.flatMap (·.panels)) ++
      (handleRemainderFound panels roof minP L).2.map (·.panelId) =
      panels.map (·.panelId) := by
  have hsplit : (panels.take (panels.length / L * L)).map (·.panelId) ++
      (panels.drop (panels.length / L * L)).map (·.panelId) =
      panels.map (·.panelId) := by
    rw [← List.map_append, List.take_append_drop]
  unfold handleRemainderFound
  by_cases hrem : panels.length % L > 0
  · by_cases hmin : panels.length % L ≥ minP
    · rw [if_pos hrem, if_pos hmin]
      simp only [List.flatMap_append, List.map_nil, List.append_nil,
        List.flatMap_cons, List.flatMap_nil, mkChunkStrings_flatMap]
      exact hsplit
    · rw [if_pos hrem, if_neg hmin]
      simp [mkChunkStrings_flatMap]
  · rw [if_neg hrem]
    simp only [List.map_nil, List.append_nil, mkChunkStrings_flatMap]
    have hall : panels.length / L * L = panels.length :=
      Nat.div_mul_cancel (Nat.dvd_of_mod_eq_zero (by omega))
    rw [hall, List.take_length]

theorem handleRemainderFound_bounds (panels : List PanelSpecs) (roof : String)
    (minP maxP L : ℕ) (hm1 : 1 ≤ minP) (hL1 : minP ≤ L) (hL2 : L ≤ maxP) :
    ∀ s ∈ (handleRemainderFound panels roof minP L).1,
      minP ≤ s.length ∧ s.length ≤ maxP ∧ s.panels.length = s.length ∧
        s.length ≤ panels.length := by
  intro s hs
  have hLpos : 1 ≤ L := le_trans hm1 hL1
  have hnumL : panels.length / L * L ≤ panels.length := Nat.div_mul_le_self _ _
  have hLle : L ≤ panels.length ∨ panels.length / L = 0 := by
    by_cases h : L ≤ panels.length
    · exact Or.inl h
    · exact Or.inr (Nat.div_eq_of_lt (by omega))
  have hmain : ∀ ty, ∀ t ∈ mkChunkStrings L (panels.length / L) panels roof ty,
      minP ≤ t.length ∧ t.length ≤ maxP ∧ t.panels.length = t.length ∧
        t.length ≤ panels.length := by
    intro ty t ht
    obtain ⟨heq, hplen, _⟩ := mkChunkStrings_mem L (panels.length / L) panels roof ty
      hnumL t ht
    rcases hLle with hc | hc
    · exact ⟨by omega, by omega, by omega, by omega⟩
    · rw [hc] at ht
      simp [mkChunkStrings, takeChunks] at ht
  unfold handleRemainderFound at hs
  by_cases hrem : panels.length % L > 0
  · by_cases hmin : panels.length % L ≥ minP
    · rw [if_pos hrem, if_pos hmin] at hs
      rcases List.mem_append.1 hs with hs1 | hs2
      · exact hmain _ s hs1
      · simp only [List.mem_singleton] at hs2
        subst hs2
        dsimp only
        have hmodlt : panels.length % L < L := Nat.mod_lt _ (by omega)
        have hmodle : panels.length % L ≤ panels.length := Nat.mod_le _ _
        refine ⟨hmin, by omega, ?_, hmodle⟩
        simp only [List.length_map, List.length_drop]
        have hdm := Nat.div_add_mod panels.length L
        have hcm : panels.length / L * L = L * (panels.length / L) := Nat.mul_comm _ _
        omega
    · rw [if_pos hrem, if_neg hmin] at hs
      exact hmain _ s hs
  · rw [if_neg hrem] at hs
    exact hmain _ s hs

theorem handleRemainderFound_straggler (panels : List PanelSpecs) (roof : String)
    (minP L : ℕ) (hm1 : 1 ≤ minP) (_hLpos : 1 ≤ L) :
    (handleRemainderFound panels roof minP L).2.length < minP := by
  unfold handleRemainderFound
  by_cases hrem : panels.length % L > 0
  · by_cases hmin : panels.length % L ≥ minP
    · rw [if_pos hrem, if_pos hmin]
      simpa using hm1
    · rw [if_pos hrem, if_neg hmin]
      simp only [List.length_drop]
      have hdm := Nat.div_add_mod panels.length L
      have hcm : panels.length / L * L = L * (panels.length / L) := Nat.mul_comm _ _
      omega
  · rw [if_neg hrem]
    simpa using hm1

theorem handle_remainder_join (panels : List PanelSpecs) (minP maxP : ℕ) :
    ((handle_remainder_with_modulus panels minP maxP).1.flatMap (·.panels)) ++
      (handle_remainder_with_modulus panels minP maxP).2.map (·.panelId) =
      panels.map (·.panelId) := by
  match panels with
  | [] => rfl
  | p0 :: ps =>
    rw [handle_remainder_with_modulus]
    cases hfind : findLenDesc minP (p0 :: ps).length maxP with
    | none => simp
    | some L => exact handleRemainderFound_join (p0 :: ps) p0.roofPlaneId minP L

theorem handle_remainder_bounds (panels : List PanelSpecs) (minP maxP : ℕ)
    (hm1 : 1 ≤ minP) :
    ∀ s ∈ (handle_remainder_with_modulus panels minP maxP).1,
      minP ≤ s.length ∧ s.length ≤ maxP ∧ s.panels.length = s.length ∧
        s.length ≤ panels.length := by
  match panels with
  | [] => intro s hs; simp [handle_remainder_with_modulus] at hs
  | p0 :: ps =>
    rw [handle_remainder_with_modulus]
    cases hfind : findLenDesc minP (p0 :: ps).length maxP with
    | none => intro s hs; simp at hs
    | some L =>
      obtain ⟨hL1, hL2, _⟩ := findLenDesc_some minP (p0 :: ps).length maxP L hfind
      exact handleRemainderFound_bounds (p0 :: ps) p0.roofPlaneId minP maxP L hm1 hL1 hL2

theorem handle_remainder_straggler_count (panels : List PanelSpecs) (minP maxP : ℕ)
    (hm1 : 1 ≤ minP) (hmx : minP ≤ maxP) :
    (handle_remainder_with_modulus panels minP maxP).2.length < minP := by
  match panels with
  | [] => simp [handle_remainder_with_modulus]; omega
  | p0 :: ps =>
    rw [handle_remainder_with_modulus]
    cases hfind : findLenDesc minP (p0 :: ps).length maxP with
    | none =>
      simpa using findLenDesc_none minP (p0 :: ps).length maxP hmx hfind
    | some L =>
      obtain ⟨hL1, _, _⟩ := findLenDesc_some minP (p0 :: ps).length maxP L hfind
      exact handleRemainderFound_straggler (p0 :: ps) p0.roofPlaneId minP L hm1
        (le_trans hm1 hL1)

theorem takeChunks_count (L : ℕ) :
    ∀ (n : ℕ) (xs : List α), (takeChunks L n xs).length = n := by
  intro n
  induction n with
  | zero => intro xs; rfl
  | succ k ih => intro xs; simp [takeChunks, ih]

theorem create_modulus_join (panels : List PanelSpecs) (ideal minP maxP : ℕ) :
    ((create_modulus_strings panels ideal minP maxP).1.flatMap (·.panels)) ++
      (create_modulus_strings panels ideal minP maxP).2.map (·.panelId) =
      panels.map (·.panelId) := by
  match panels with
  | [] => rfl
  | p0 :: ps =>
    rw [create_modulus_strings]
    by_cases hrem : (p0 :: ps).length % ideal > 0
    · rw [if_pos hrem]
      simp only [List.flatMap_append, mkChunkStrings_flatMap, List.append_assoc]
      rw [handle_remainder_join]
      rw [← List.map_append, List.take_append_drop]
    · rw [if_neg hrem]
      simp only [List.map_nil, List.append_nil, mkChunkStrings_flatMap]
      have hall : (p0 :: ps).length / ideal * ideal = (p0 :: ps).length :=
        Nat.div_mul_cancel (Nat.dvd_of_mod_eq_zero (by omega))
      rw [hall, List.take_length]

theorem create_modulus_countP (panels : List PanelSpecs) (ideal minP maxP : ℕ)
    (hm1 : 1 ≤ minP) (hmi : minP ≤ ideal) :
    ((create_modulus_strings panels ideal minP maxP).1.countP
      (fun s => decide (s.length = ideal))) = panels.length / ideal := by
  have hipos : 1 ≤ ideal := le_trans hm1 hmi
  match panels with
  | [] => simp [create_modulus_strings]
  | p0 :: ps =>
    rw [create_modulus_strings]
    have hmainCount : ∀ ty, (mkChunkStrings ideal ((p0 :: ps).length / ideal)
        (p0 :: ps) p0.roofPlaneId ty).countP (fun s => decide (s.length = ideal)) =
        (p0 :: ps).length / ideal := by
      intro ty
      rw [List.countP_eq_length_filter]
      have hfil : (mkChunkStrings ideal ((p0 :: ps).length / ideal)
          (p0 :: ps) p0.roofPlaneId ty).filter (fun s => decide (s.length = ideal)) =
          mkChunkStrings ideal ((p0 :: ps).length / ideal) (p0 :: ps) p0.roofPlaneId ty := by
        apply List.filter_eq_self.2
        intro s hs
        obtain ⟨chunk, _, rfl⟩ := List.mem_map.1 hs
        simp
      rw [hfil]
      simp [mkChunkStrings, takeChunks_count]
    by_cases hrem : (p0 :: ps).length % ideal > 0
    · rw [if_pos hrem]
      rw [List.countP_append, hmainCount]
      have hrzero : ((handle_remainder_with_modulus
          ((p0 :: ps).drop ((p0 :: ps).length / ideal * ideal)) minP maxP).1.countP
          (fun s => decide (s.length = ideal))) = 0 := by
        apply List.countP_eq_zero.2
        intro s hs
        have hle := (handle_remainder_bounds _ minP maxP hm1 s hs).2.2.2
        have hdroplen : ((p0 :: ps).drop ((p0 :: ps).length / ideal * ideal)).length =
            (p0 :: ps).length % ideal := by
          simp only [List.length_drop]
          have hdm := Nat.div_add_mod (p0 :: ps).length ideal
          have hcm : (p0 :: ps).length / ideal * ideal =
            ideal * ((p0 :: ps).length / ideal) := Nat.mul_comm _ _
          omega
        have hmodlt : (p0 :: ps).length % ideal < ideal := Nat.mod_lt _ (by omega)
        simp only [decide_eq_true_eq]
        omega
      rw [hrzero, Nat.add_zero]
    · rw [if_neg hrem]
      exact hmainCount _

theorem create_modulus_bounds (panels : List PanelSpecs) (ideal minP maxP : ℕ)
    (hm1 : 1 ≤ minP) (hmi : minP ≤ ideal) (him : ideal ≤ maxP) :
    ∀ s ∈ (create_modulus_strings panels ideal minP maxP).1,
      minP ≤ s.length ∧ s.length ≤ maxP ∧ s.panels.length = s.length := by
  have hipos : 1 ≤ ideal := le_trans hm1 hmi
  match panels with
  | [] => intro s hs; simp [create_modulus_strings] at hs
  | p0 :: ps =>
    intro s hs
    rw [create_modulus_strings] at hs
    have hnumL : (p0 :: ps).length / ideal * ideal ≤ (p0 :: ps).length :=
      Nat.div_mul_le_self _ _
    have hmain : ∀ ty, ∀ t ∈ mkChunkStrings ideal ((p0 :: ps).length / ideal)
        (p0 :: ps) p0.roofPlaneId ty,
        minP ≤ t.length ∧ t.length ≤ maxP ∧ t.panels.length = t.length := by
      intro ty t ht
      obtain ⟨heq, hplen, _⟩ := mkChunkStrings_mem ideal ((p0 :: ps).length / ideal)
        (p0 :: ps) p0.roofPlaneId ty hnumL t ht
      exact ⟨by omega, by omega, by omega⟩
    by_cases hrem : (p0 :: ps).length % ideal > 0
    · rw [if_pos hrem] at hs
      rcases List.mem_append.1 hs with hs1 | hs2
      · exact hmain _ s hs1
      · have := handle_remainder_bounds _ minP maxP hm1 s hs2
        exact ⟨this.1, this.2.1, this.2.2.1⟩
    · rw [if_neg hrem] at hs
      exact hmain _ s hs

theorem create_modulus_straggler_count (panels : List PanelSpecs)
    (ideal minP maxP : ℕ) (hm1 : 1 ≤ minP) (hmx : minP ≤ maxP) :
    (create_modulus_strings panels ideal minP maxP).2.length < minP := by
  match panels with
  | [] => simp [create_modulus_strings]; omega
  | p0 :: ps =>
    rw [create_modulus_strings]
    by_cases hrem : (p0 :: ps).length % ideal > 0
    · rw [if_pos hrem]
      exact handle_remainder_straggler_count _ minP maxP hm1 hmx
    · rw [if_neg hrem]
      simpa using hm1

/-! ### Invariant of the greedy MPPT packer -/

/-- All parallel strings of one MPPT share one length. -/
def MpptHomog (m : List StringData) : Prop :=
  ∀ a ∈ m, ∀ b ∈ m, a.length = b.length

/-- The invariant carried through `_greedy_mppt_assignment`: every MPPT is
length-homogeneous, and every MPPT holding at least two parallel strings
passed the `(count + 1) * isc ≤ max` admission check for its last
addition, so its full complement satisfies `count * isc ≤ max`. -/
def MpptInv (isc maxCur : ℚ) (mppts : List (List StringData)) : Prop :=
  ∀ m ∈ mppts, MpptHomog m ∧ (2 ≤ m.length → qmul (mkRat m.length 1) isc ≤ maxCur)

theorem tryAddParallel_inv (isc maxCur : ℚ) (s : StringData) :
    ∀ (mppts res : List (List StringData)),
      tryAddParallel isc maxCur s mppts = some res →
      MpptInv isc maxCur mppts → MpptInv isc maxCur res := by
  intro mppts
  induction mppts with
  | nil => intro res h; simp [tryAddParallel] at h
  | cons m ms ih =>
    intro res h hinv
    rw [tryAddParallel] at h
    by_cases hcond : (¬ (m.filter (fun x => x.length = s.length)).isEmpty) ∧
        qmul (mkRat ((m.filter (fun x => x.length = s.length)).length + 1) 1) isc ≤ maxCur
    · rw [if_pos hcond] at h
      have hres : (m ++ [s]) :: ms = res := Option.some.inj h
      subst hres
      obtain ⟨hne, hcur⟩ := hcond
      -- the matching MPPT is homogeneous and contains a string of s's length,
      -- so the filter keeps everything: filter length = m.length
      have hm := hinv m (List.mem_cons_self _ _)
      obtain ⟨x, hx⟩ : ∃ x, x ∈ m.filter (fun x => x.length = s.length) := by
        refine List.exists_mem_of_ne_nil _ ?_
        intro hcontr
        rw [hcontr] at hne
        simp at hne
      have hxm : x ∈ m := List.mem_of_mem_filter hx
      have hxlen : x.length = s.length := by
        have := List.of_mem_filter hx
        simpa using this
      have halllen : ∀ a ∈ m, a.length = s.length := fun a ha =>
        (hm.1 a ha x hxm).trans hxlen
      have hfilterall : m.filter (fun x => x.length = s.length) = m :=
        List.filter_eq_self.2 (fun a ha => by simpa using halllen a ha)
      intro m' hm'
      rcases List.mem_cons.1 hm' with rfl | hm's
      · constructor
        · intro a ha b hb
          rcases List.mem_append.1 ha with ha1 | ha2
          · rcases List.mem_append.1 hb with hb1 | hb2
            · exact hm.1 a ha1 b hb1
            · simp only [List.mem_singleton] at hb2
              rw [hb2, halllen a ha1]
          · simp only [List.mem_singleton] at ha2
            rcases List.mem_append.1 hb with hb1 | hb2
            · rw [ha2, halllen b hb1]
            · simp only [List.mem_singleton] at hb2
              rw [ha2, hb2]
        · intro _
          have hlen : (m ++ [s]).length = m.length + 1 := by simp
          rw [hlen]
          rw [hfilterall] at hcur
          exact hcur
      · exact hinv m' (List.mem_cons_of_mem _ hm's)
    · rw [if_neg hcond] at h
      cases htl : tryAddParallel isc maxCur s ms with
      | none => rw [htl] at h; simp at h
      | some res' =>
        rw [htl] at h
        have hres : m :: res' = res := by simpa using h
        subst hres
        intro m' hm'
        rcases List.mem_cons.1 hm' with rfl | hm's
        · exact hinv m' (List.mem_cons_self _ _)
        · exact ih res' htl (fun t ht => hinv t (List.mem_cons_of_mem _ ht)) m' hm's

theorem greedyFold_inv (isc maxCur : ℚ) :
    ∀ (strings : List StringData) (mppts : List (List StringData)),
      MpptInv isc maxCur mppts →
      MpptInv isc maxCur (strings.foldl
        (fun acc s =>
          match tryAddParallel isc maxCur s acc with
          | some r => r
          | none => acc ++ [[s]]) mppts) := by
  intro strings
  induction strings with
  | nil => intro mppts h; exact h
  | cons s rest ih =>
    intro mppts hinv
    simp only [List.foldl_cons]
    cases htry : tryAddParallel isc maxCur s mppts with
    | some r =>
      exact ih r (tryAddParallel_inv isc maxCur s mppts r htry hinv)
    | none =>
      refine ih _ ?_
      intro m hm
      rcases List.mem_append.1 hm with hm1 | hm2
      · exact hinv m hm1
      · simp only [List.mem_singleton] at hm2
        subst hm2
        refine ⟨?_, ?_⟩
        · intro a ha b hb
          simp only [List.mem_singleton] at ha hb
          rw [ha, hb]
        · intro hlen
          simp only [List.length_cons, List.length_nil] at hlen
          omega

theorem greedy_mppt_assignment_inv (isc maxCur : ℚ) (strings : List StringData) :
    MpptInv isc maxCur (greedy_mppt_assignment isc maxCur strings) := by
  unfold greedy_mppt_assignment
  exact greedyFold_inv isc maxCur _ [] (fun m hm => by simp at hm)

end Sso

/-! ## Lemmas on firstMinBy and the rebalance step (stringer/simple_stringing.py) -/

theorem firstMinBy_foldl_mem (f : α → ℚ) :
    ∀ (xs : List α) (acc : Option α) (b : α),
      xs.foldl (fun acc x =>
        match acc with
        | none => some x
        | some bb => if f x < f bb then some x else some bb) acc = some b →
      acc = some b ∨ b ∈ xs := by
  intro xs
  induction xs with
  | nil => intro acc b h; exact Or.inl h
  | cons x rest ih =>
    intro acc b h
    simp only [List.foldl_cons] at h
    rcases ih _ b h with hstep | hmem
    · match acc with
      | none =>
        simp only at hstep
        exact Or.inr (List.mem_cons.2 (Or.inl (Option.some.inj hstep).symm))
      | some bb =>
        simp only at hstep
        by_cases hlt : f x < f bb
        · rw [if_pos hlt] at hstep
          exact Or.inr (List.mem_cons.2 (Or.inl (Option.some.inj hstep).symm))
        · rw [if_neg hlt] at hstep
          exact Or.inl hstep
    · exact Or.inr (List.mem_cons_of_mem _ hmem)

theorem firstMinBy_mem (f : α → ℚ) (xs : List α) (b : α)
    (h : firstMinBy f xs = some b) : b ∈ xs := by
  rcases firstMinBy_foldl_mem f xs none b h with habs | hmem
  · exact absurd habs (by simp)
  · exact hmem

theorem firstMinBy_foldl_isSome (f : α → ℚ) :
    ∀ (xs : List α) (a : α),
      (xs.foldl (fun acc x =>
        match acc with
        | none => some x
        | some bb => if f x < f bb then some x else some bb) (some a)).isSome := by
  intro xs
  induction xs with
  | nil => intro a; rfl
  | cons x rest ih =>
    intro a
    simp only [List.foldl_cons]
    by_cases hlt : f x < f a
    · simpa [hlt] using ih x
    · simpa [hlt] using ih a

theorem firstMinBy_none (f : α → ℚ) (xs : List α)
    (h : firstMinBy f xs = none) : xs = [] := by
  match xs with
  | [] => rfl
  | x :: rest =>
    exfalso
    have := firstMinBy_foldl_isSome f rest x
    unfold firstMinBy at h
    simp only [List.foldl_cons] at h
    rw [h] at this
    simp at this

namespace Stringer

theorem nnOrderGo_perm :
    ∀ (fuel : ℕ) (current : PanelSpecs) (remaining : List PanelSpecs),
      remaining.length ≤ fuel → (nnOrderGo fuel current remaining).Perm remaining := by
  intro fuel
  induction fuel with
  | zero =>
    intro current remaining hlen
    match remaining, hlen with
    | [], _ => exact List.Perm.refl _
  | succ k ih =>
    intro current remaining hlen
    rw [nnOrderGo]
    cases hmin : firstMinBy (fun p => distSq current p) remaining with
    | none =>
      have hrem : remaining = [] := firstMinBy_none _ _ hmin
      subst hrem
      exact List.Perm.refl _
    | some c =>
      have hc : c ∈ remaining := firstMinBy_mem _ _ _ hmin
      have herase : (remaining.erase c).length = remaining.length - 1 :=
        List.length_erase_of_mem hc
      have hlen1 : 0 < remaining.length := List.length_pos.2 (by
        intro hcontr
        rw [hcontr] at hc
        simp at hc)
      have hrec := ih c (remaining.erase c) (by omega)
      exact (hrec.cons c).trans (List.perm_cons_erase hc).symm

theorem order_group_by_proximity_perm (group : List PanelSpecs) :
    (order_group_by_proximity group).Perm (group.map (·.panelId)) := by
  match group with
  | [] => exact List.Perm.refl _
  | [p] => exact List.Perm.refl _
  | p :: q :: rest =>
    have hunf : order_group_by_proximity (p :: q :: rest) =
        (p :: nnOrderGo (q :: rest).length p (q :: rest)).map (·.panelId) := rfl
    rw [hunf]
    refine List.Perm.map _ ?_
    exact (nnOrderGo_perm (q :: rest).length p (q :: rest) le_rfl).cons p

/-- The ids re-ordered by `_order_group_by_proximity` after the
`panel_lookup` round trip are a permutation of the original ids
(`getPanel` preserves the id even on the unreachable missing-key path). -/
theorem order_group_lookup_perm (panels : List PanelSpecs) (ids : List String) :
    (order_group_by_proximity (ids.map (getPanel panels))).Perm ids := by
  refine (order_group_by_proximity_perm _).trans ?_
  rw [List.map_map]
  have hmap : List.map ((fun x => x.panelId) ∘ getPanel panels) ids = List.map id ids :=
    List.map_congr_left (fun x _ => getPanel_panelId panels x)
  rw [hmap, List.map_id]

theorem rebalance_string_group_flatten_perm (panels : List PanelSpecs)
    (minP maxP : ℤ) (strings : List (List String)) (hm1 : 1 ≤ minP) :
    ((rebalance_string_group panels minP maxP strings).flatten).Perm
      strings.flatten := by
  rw [rebalance_string_group]
  by_cases hnum : strings.length < 2
  · rw [if_pos hnum]
  · rw [if_neg hnum]
    cases hfind : (List.range' 2 (strings.length - 1)).find?
      (fun i => decide (strings.flatten.length % i = 0) &&
        (decide (((strings.flatten.length / i : ℕ) : ℤ) ≥ minP) &&
         decide (((strings.flatten.length / i : ℕ) : ℤ) ≤ maxP))) with
    | none => exact List.Perm.refl _
    | some i =>
      have hcond := List.find?_some hfind
      simp only [Bool.and_eq_true, decide_eq_true_eq] at hcond
      obtain ⟨hdvd, hge, _⟩ := hcond
      have hirange : i ∈ List.range' 2 (strings.length - 1) :=
        List.mem_of_find?_eq_some hfind
      have hi2 : 2 ≤ i := (List.mem_range'_1.1 hirange).1
      have hnewpos : 1 ≤ strings.flatten.length / i := by
        have : (1 : ℤ) ≤ ((strings.flatten.length / i : ℕ) : ℤ) := le_trans hm1 hge
        omega
      have hmul : i * (strings.flatten.length / i) = strings.flatten.length :=
        Nat.mul_div_cancel' (Nat.dvd_of_mod_eq_zero hdvd)
      have hordlen : (order_group_by_proximity
          (strings.flatten.map (getPanel panels))).length = strings.flatten.length := by
        have := (order_group_lookup_perm panels strings.flatten).length_eq
        simpa using this
      have hflat : (takeChunks (strings.flatten.length / i) i
          (order_group_by_proximity (strings.flatten.map (getPanel panels)))).flatten =
          order_group_by_proximity (strings.flatten.map (getPanel panels)) := by
        rw [flatten_takeChunks]
        have hlen2 : i * (strings.flatten.length / i) =
            (order_group_by_proximity (strings.flatten.map (getPanel panels))).length := by
          rw [hordlen, hmul]
        rw [hlen2, List.take_length]
      rw [hflat]
      exact order_group_lookup_perm panels strings.flatten

/-- Permutation congruence for flattened `flatMap`s. -/
theorem flatMap_flatten_perm (G : List γ) (f h : γ → List (List α))
    (hfh : ∀ g ∈ G, ((f g).flatten).Perm ((h g).flatten)) :
    ((G.flatMap f).flatten).Perm ((G.flatMap h).flatten) := by
  induction G with
  | nil => exact List.Perm.refl _
  | cons g rest ih =>
    simp only [List.flatMap_cons, List.flatten_append]
    exact (hfh g (List.mem_cons_self _ _)).append
      (ih (fun g' hg' => hfh g' (List.mem_cons_of_mem _ hg')))

/-- The parallel-rebalancing step conserves exactly the panels of strings
whose roof plane lies in a similar-roof group, and drops all others. -/
theorem rebalance_strings_for_parallel_flatten_perm (panels : List PanelSpecs)
    (roofPlanes : List (String × ℚ × ℚ)) (minP maxP : ℤ)
    (strings : List (List String)) (hm1 : 1 ≤ minP) :
    ((rebalance_strings_for_parallel panels roofPlanes minP maxP strings).flatten).Perm
      ((strings.filter (fun s =>
        (roofToGroup roofPlanes (getPanel panels (s.headD "")).roofPlaneId).isSome)).flatten) := by
  rw [rebalance_strings_for_parallel]
  have hfun : (fun (acc : List (ℕ × List (List String))) (s : List String) =>
      match roofToGroup roofPlanes (getPanel panels (s.headD "")).roofPlaneId with
      | some g => updateAssocAppend acc g s
      | none => acc) =
      (fun acc s =>
        if (roofToGroup roofPlanes (getPanel panels (s.headD "")).roofPlaneId).isSome then
          updateAssocAppend acc
            ((roofToGroup roofPlanes (getPanel panels (s.headD "")).roofPlaneId).getD 0) s
        else acc) := by
    funext acc s
    cases hg : roofToGroup roofPlanes (getPanel panels (s.headD "")).roofPlaneId with
    | none => simp [hg]
    | some g => simp [hg]
  rw [hfun]
  refine (flatMap_flatten_perm _ _ (·.2) ?_).trans ?_
  · intro g _
    exact rebalance_string_group_flatten_perm panels minP maxP g.2 hm1
  · refine List.Perm.flatten ?_
    have := foldlGroup_flatMap_perm
      (fun s : List String =>
        (roofToGroup roofPlanes (getPanel panels (s.headD "")).roofPlaneId).getD 0)
      (fun s : List String =>
        (roofToGroup roofPlanes (getPanel panels (s.headD "")).roofPlaneId).isSome)
      strings []
    simpa using this

end Stringer

/-! ### Lemmas on the MPPT grouping of `_assign_strings_to_mppts` -/

/-- The first element of `groupByKey` keeps the first input at the head of
the first group. -/
theorem updateAssocAppend_head_shape [DecidableEq κ] (x : β) :
    ∀ (acc : List (κ × List β)) (k0 : κ) (t : List β) (r : List (κ × List β))
      (k' : κ) (b : β), acc = (k0, x :: t) :: r →
      ∃ t' r', updateAssocAppend acc k' b = (k0, x :: t') :: r' := by
  intro acc k0 t r k' b hacc
  subst hacc
  by_cases hk : k0 = k'
  · refine ⟨t ++ [b], r, ?_⟩
    simp [updateAssocAppend, hk]
  · refine ⟨t, updateAssocAppend r k' b, ?_⟩
    simp [updateAssocAppend, hk]

theorem groupByKey_first_shape [DecidableEq κ] (key : β → κ) (x : β) (xs : List β) :
    ∃ t rest, groupByKey key (x :: xs) = (key x, x :: t) :: rest := by
  have main : ∀ (ys : List β) (t : List β) (rest : List (κ × List β)),
      ∃ t' rest', ys.foldl (fun a s => updateAssocAppend a (key s) s)
        ((key x, x :: t) :: rest) = (key x, x :: t') :: rest' := by
    intro ys
    induction ys with
    | nil => intro t rest; exact ⟨t, rest, rfl⟩
    | cons y more ih =>
      intro t rest
      simp only [List.foldl_cons]
      obtain ⟨t1, r1, hstep⟩ := updateAssocAppend_head_shape x
        ((key x, x :: t) :: rest) (key x) t rest (key y) y rfl
      rw [hstep]
      exact ih t1 r1
  have h0 : groupByKey key (x :: xs) =
      xs.foldl (fun a s => updateAssocAppend a (key s) s) [(key x, [x])] := rfl
  rw [h0]
  exact main xs [] []

namespace Stringer

/-- The step function of the fold inside `assign_strings_to_mppts`. -/
def assignStep (panels : List PanelSpecs) (maxCur : ℚ)
    (acc : Option (List (List (List String)))) (g : ℕ × List (List String)) :
    Option (List (List (List String))) :=
  match acc with
  | none => none
  | some mppts =>
    match g.2 with
    | [] => some mppts
    | g0 :: _ =>
      let panel := getPanel panels (g0.headD "")
      let maxParallel : ℤ :=
        if 0 < panel.imppStc then pyTrunc (qdiv maxCur panel.imppStc) else 1
      match pyRangeChunks maxParallel g.2 with
      | none => none
      | some chunks => some (mppts ++ chunks)

theorem assign_strings_to_mppts_eq_fold (panels : List PanelSpecs) (maxCur : ℚ)
    (strings : List (List String)) (hne : ¬ strings.isEmpty) :
    assign_strings_to_mppts panels maxCur strings =
      (groupByKey List.length strings).foldl (assignStep panels maxCur) (some []) := by
  rw [assign_strings_to_mppts, if_neg hne]
  rfl

theorem assignStep_none (panels : List PanelSpecs) (maxCur : ℚ) :
    ∀ (Gs : List (ℕ × List (List String))),
      Gs.foldl (assignStep panels maxCur) none = none := by
  intro Gs
  induction Gs with
  | nil => rfl
  | cons g rest ih => simpa [assignStep] using ih

/-- Capacity condition letting a group be chunked: the head string's head
panel yields `max_parallel ≥ 1`. -/
def CapOk (panels : List PanelSpecs) (maxCur : ℚ) (g : ℕ × List (List String)) : Prop :=
  match g.2 with
  | [] => True
  | g0 :: _ =>
    1 ≤ (if 0 < (getPanel panels (g0.headD "")).imppStc then
      pyTrunc (qdiv maxCur (getPanel panels (g0.headD "")).imppStc) else 1)

theorem assignFold_some (panels : List PanelSpecs) (maxCur : ℚ) :
    ∀ (Gs : List (ℕ × List (List String))) (ms : List (List (List String))),
      (∀ g ∈ Gs, CapOk panels maxCur g) →
      ∃ out, Gs.foldl (assignStep panels maxCur) (some ms) = some out ∧
        out.flatten = ms.flatten ++ Gs.flatMap (·.2) := by
  intro Gs
  induction Gs with
  | nil => intro ms _; exact ⟨ms, rfl, by simp⟩
  | cons g rest ih =>
    intro ms hok
    simp only [List.foldl_cons]
    have hg := hok g (List.mem_cons_self _ _)
    match hg2 : g.2 with
    | [] =>
      have hstep : assignStep panels maxCur (some ms) g = some ms := by
        simp [assignStep, hg2]
      rw [hstep]
      obtain ⟨out, hout, hflat⟩ := ih ms (fun g' hg' => hok g' (List.mem_cons_of_mem _ hg'))
      exact ⟨out, hout, by simpa [hg2] using hflat⟩
    | g0 :: gtail =>
      rw [CapOk, hg2] at hg
      set mp : ℤ := if 0 < (getPanel panels (g0.headD "")).imppStc then
        pyTrunc (qdiv maxCur (getPanel panels (g0.headD "")).imppStc) else 1 with hmp
      have hmp1 : 1 ≤ mp := hg
      have hchunks : pyRangeChunks mp (g0 :: gtail) = some (chunksBy mp.toNat (g0 :: gtail)) := by
        rw [pyRangeChunks, if_neg (by omega), if_neg (by omega)]
      have hstep : assignStep panels maxCur (some ms) g =
          some (ms ++ chunksBy mp.toNat (g0 :: gtail)) := by
        rw [assignStep]
        simp only [hg2]
        rw [← hmp, hchunks]
      rw [hstep]
      obtain ⟨out, hout, hflat⟩ := ih (ms ++ chunksBy mp.toNat (g0 :: gtail))
        (fun g' hg' => hok g' (List.mem_cons_of_mem _ hg'))
      refine ⟨out, hout, ?_⟩
      rw [hflat, List.flatten_append, flatten_chunksBy mp.toNat (by omega) (g0 :: gtail)]
      simp [hg2]

/-- Per-string capacity hypothesis: a positive head-panel Impp stays within
the MPPT current limit. -/
def ImppOk (panels : List PanelSpecs) (maxCur : ℚ) (s : List String) : Prop :=
  0 < (getPanel panels (s.headD "")).imppStc →
    (getPanel panels (s.headD "")).imppStc ≤ maxCur

instance (panels : List PanelSpecs) (maxCur : ℚ) (s : List String) :
    Decidable (ImppOk panels maxCur s) := by
  rw [ImppOk]
  infer_instance

theorem capOk_of_imppOk (panels : List PanelSpecs) (maxCur : ℚ)
    (strings : List (List String)) (hok : ∀ s ∈ strings, ImppOk panels maxCur s) :
    ∀ g ∈ groupByKey List.length strings, CapOk panels maxCur g := by
  intro g hg
  rw [CapOk]
  match hg2 : g.2 with
  | [] => trivial
  | g0 :: gtail =>
    have hg0 : g0 ∈ strings := groupByKey_mem List.length strings g hg g0 (by rw [hg2]; exact List.mem_cons_self _ _)
    have himpp := hok g0 hg0
    show 1 ≤ (if 0 < (getPanel panels (g0.headD "")).imppStc then
      pyTrunc (qdiv maxCur (getPanel panels (g0.headD "")).imppStc) else 1)
    by_cases hpos : 0 < (getPanel panels (g0.headD "")).imppStc
    · rw [if_pos hpos]
      have hle := himpp hpos
      have hq : (1 : ℚ) ≤ qdiv maxCur (getPanel panels (g0.headD "")).imppStc := by
        rw [qdiv_eq]
        exact (one_le_div hpos).2 hle
      have hq0 : (0 : ℚ) ≤ qdiv maxCur (getPanel panels (g0.headD "")).imppStc := by
        linarith
      rw [pyTrunc, if_pos hq0, ratFloor_eq]
      exact Int.le_floor.2 (by exact_mod_cast hq)
    · rw [if_neg hpos]

theorem assign_strings_to_mppts_flatten (panels : List PanelSpecs) (maxCur : ℚ)
    (strings : List (List String)) (hok : ∀ s ∈ strings, ImppOk panels maxCur s) :
    ∃ mppts, assign_strings_to_mppts panels maxCur strings = some mppts ∧
      (mppts.flatten).Perm strings := by
  by_cases hne : strings.isEmpty
  · refine ⟨[], ?_, ?_⟩
    · rw [assign_strings_to_mppts, if_pos hne]
    · have : strings = [] := by
        cases strings with
        | nil => rfl
        | cons a b => simp at hne
      rw [this]
      exact List.Perm.refl _
  · rw [assign_strings_to_mppts_eq_fold panels maxCur strings hne]
    obtain ⟨out, hout, hflat⟩ := assignFold_some panels maxCur
      (groupByKey List.length strings) [] (capOk_of_imppOk panels maxCur strings hok)
    refine ⟨out, hout, ?_⟩
    rw [hflat]
    simp only [List.flatten_nil, List.nil_append]
    have hperm := foldlGroup_flatMap_perm (List.length (α := String))
      (fun _ => true) strings []
    have hgroups : ((groupByKey List.length strings).flatMap (·.2)).Perm strings := by
      have hfun : (fun (a : List (ℕ × List (List String))) (s : List String) =>
          if (fun _ => true) s then updateAssocAppend a (s.length) s else a) =
          (fun a s => updateAssocAppend a (s.length) s) := by
        funext a s
        simp
      rw [hfun] at hperm
      simpa [List.filter_true] using hperm
    exact hgroups

end Stringer

/-! ### Key lemmas on the dict operations (`lookupAssoc` / `updateAssocSet`) -/

theorem lookupAssoc_none_iff [DecidableEq κ] (l : List (κ × β)) (k : κ) :
    lookupAssoc l k = none ↔ k ∉ l.map Prod.fst := by
  induction l with
  | nil => simp [lookupAssoc]
  | cons e rest ih =>
    by_cases hk : e.1 = k
    · constructor
      · intro h
        rw [lookupAssoc, List.find?_cons_of_pos _ (by simpa using hk)] at h
        simp at h
      · intro h
        exact absurd (List.mem_map.2 ⟨e, List.mem_cons_self _ _, hk⟩) h
    · rw [lookupAssoc, List.find?_cons_of_neg _ (by simpa using hk), ← lookupAssoc, ih]
      constructor
      · intro h hmem
        rw [List.map_cons, List.mem_cons] at hmem
        rcases hmem with h1 | h2
        · exact hk h1.symm
        · exact h h2
      · intro h hmem
        exact h (by rw [List.map_cons, List.mem_cons]; right; exact hmem)

theorem updateAssocSet_of_not_mem [DecidableEq κ] :
    ∀ (l : List (κ × β)) (k : κ) (b : β), k ∉ l.map Prod.fst →
      updateAssocSet l k b = l ++ [(k, b)] := by
  intro l
  induction l with
  | nil => intro k b _; rfl
  | cons e rest ih =>
    obtain ⟨kh, bh⟩ := e
    intro k b hk
    rw [List.map_cons, List.mem_cons] at hk
    push_neg at hk
    rw [updateAssocSet, if_neg (fun h => hk.1 h.symm), ih k b hk.2, List.cons_append]

theorem updateAssocSet_keys_of_mem [DecidableEq κ] :
    ∀ (l : List (κ × β)) (k : κ) (b : β), k ∈ l.map Prod.fst →
      (updateAssocSet l k b).map Prod.fst = l.map Prod.fst := by
  intro l
  induction l with
  | nil => intro k b hk; simp at hk
  | cons e rest ih =>
    obtain ⟨kh, bh⟩ := e
    intro k b hk
    by_cases hkk : kh = k
    · rw [updateAssocSet, if_pos hkk]
      simp [hkk]
    · rw [updateAssocSet, if_neg hkk, List.map_cons, List.map_cons]
      rw [List.map_cons, List.mem_cons] at hk
      rcases hk with h1 | h2
      · exact absurd h1.symm hkk
      · rw [ih k b h2]

theorem updateAssocSet_length_of_mem [DecidableEq κ] (l : List (κ × β)) (k : κ)
    (b : β) (hk : k ∈ l.map Prod.fst) :
    (updateAssocSet l k b).length = l.length := by
  have h := congrArg List.length (updateAssocSet_keys_of_mem l k b hk)
  simpa using h

namespace Stringer

/-! ### Lemmas on the inverter loop of `_assign_mppts_to_inverters` -/

theorem assignMpptsGo_stop (mpptsPer M : ℕ) (m : List (List String))
    (ms : List (List (List String))) (c localC : ℕ) (invs : InvStruct)
    (h : c > M) :
    assignMpptsGo (some M) mpptsPer (m :: ms) c localC invs = invs := by
  rw [assignMpptsGo]
  simp [h]

theorem assignMpptsGo_cons_some (mpptsPer M : ℕ) (m : List (List String))
    (ms : List (List (List String))) (c localC : ℕ) (invs : InvStruct)
    (h : ¬ c > M) :
    assignMpptsGo (some M) mpptsPer (m :: ms) c localC invs =
      assignMpptsGo (some M) mpptsPer ms
        (if (updateAssocSet ((lookupAssoc invs c).getD [])
            (if (lookupAssoc invs c).isNone then 1 else localC) m).length ≥ mpptsPer
          then c + 1 else c)
        (if (lookupAssoc invs c).isNone then 1 else localC)
        (updateAssocSet invs c
          (updateAssocSet ((lookupAssoc invs c).getD [])
            (if (lookupAssoc invs c).isNone then 1 else localC) m)) := by
  rw [assignMpptsGo, if_neg (by simpa using h)]

theorem assignMpptsGo_cons_none (mpptsPer : ℕ) (m : List (List String))
    (ms : List (List (List String))) (c localC : ℕ) (invs : InvStruct) :
    assignMpptsGo none mpptsPer (m :: ms) c localC invs =
      assignMpptsGo none mpptsPer ms
        (if (updateAssocSet ((lookupAssoc invs c).getD [])
            (if (lookupAssoc invs c).isNone then 1 else localC) m).length ≥ mpptsPer
          then c + 1 else c)
        (if (lookupAssoc invs c).isNone then 1 else localC)
        (updateAssocSet invs c
          (updateAssocSet ((lookupAssoc invs c).getD [])
            (if (lookupAssoc invs c).isNone then 1 else localC) m)) := by
  rw [assignMpptsGo, if_neg (by simp)]

theorem assignMpptsGo_cons_go (maxInv : Option ℕ) (mpptsPer : ℕ)
    (m : List (List String)) (ms : List (List (List String))) (c localC : ℕ)
    (invs : InvStruct) (h : ∀ M, maxInv = some M → ¬ c > M) :
    assignMpptsGo maxInv mpptsPer (m :: ms) c localC invs =
      assignMpptsGo maxInv mpptsPer ms
        (if (updateAssocSet ((lookupAssoc invs c).getD [])
            (if (lookupAssoc invs c).isNone then 1 else localC) m).length ≥ mpptsPer
          then c + 1 else c)
        (if (lookupAssoc invs c).isNone then 1 else localC)
        (updateAssocSet invs c
          (updateAssocSet ((lookupAssoc invs c).getD [])
            (if (lookupAssoc invs c).isNone then 1 else localC) m)) := by
  cases maxInv with
  | none => exact assignMpptsGo_cons_none mpptsPer m ms c localC invs
  | some M => exact assignMpptsGo_cons_some mpptsPer M m ms c localC invs (h M rfl)

/-- The fresh-inverter step: a counter not yet in the dict resets the local
MPPT counter to 1 and appends a new inverter entry with the single MPPT. -/
theorem assignMpptsGo_cons_fresh (maxInv : Option ℕ) (mpptsPer : ℕ)
    (m : List (List String)) (ms : List (List (List String))) (c localC : ℕ)
    (invs : InvStruct) (h : ∀ M, maxInv = some M → ¬ c > M)
    (hfresh : lookupAssoc invs c = none) :
    assignMpptsGo maxInv mpptsPer (m :: ms) c localC invs =
      assignMpptsGo maxInv mpptsPer ms (if 1 ≥ mpptsPer then c + 1 else c) 1
        (invs ++ [(c, [(1, m)])]) := by
  rw [assignMpptsGo_cons_go maxInv mpptsPer m ms c localC invs h, hfresh]
  rw [updateAssocSet_of_not_mem invs c _ ((lookupAssoc_none_iff invs c).1 hfresh)]
  simp [updateAssocSet]

/-- The step on an existing inverter: the stale local counter key overwrites
the inner dict entry in place. -/
theorem assignMpptsGo_cons_stay (maxInv : Option ℕ) (mpptsPer : ℕ)
    (m : List (List String)) (ms : List (List (List String))) (c localC : ℕ)
    (invs : InvStruct) (inner : List (ℕ × List (List String)))
    (h : ∀ M, maxInv = some M → ¬ c > M)
    (hlook : lookupAssoc invs c = some inner) :
    assignMpptsGo maxInv mpptsPer (m :: ms) c localC invs =
      assignMpptsGo maxInv mpptsPer ms
        (if (updateAssocSet inner localC m).length ≥ mpptsPer then c + 1 else c)
        localC (updateAssocSet invs c (updateAssocSet inner localC m)) := by
  rw [assignMpptsGo_cons_go maxInv mpptsPer m ms c localC invs h, hlook]
  simp

/-- With a cap of `M` inverters the loop never opens more than `M`: the
inverter counter walks the contiguous key range and stops past the cap. -/
theorem assignMpptsGo_cap (mpptsPer M : ℕ) :
    ∀ (ms : List (List (List String))) (c localC : ℕ) (invs : InvStruct),
      invs.map Prod.fst = List.range' 1 invs.length →
      (c = invs.length ∨ c = invs.length + 1) → 1 ≤ c → invs.length ≤ M →
      (assignMpptsGo (some M) mpptsPer ms c localC invs).length ≤ M := by
  intro ms
  induction ms with
  | nil =>
    intro c localC invs _ _ _ hle
    exact hle
  | cons m rest ih =>
    intro c localC invs hkeys hc hc1 hle
    by_cases hstop : c > M
    · rw [assignMpptsGo_stop mpptsPer M m rest c localC invs hstop]
      exact hle
    · have hgo : ∀ M', (some M : Option ℕ) = some M' → ¬ c > M' := by
        intro M' hM'
        cases hM'
        exact hstop
      cases hfresh : lookupAssoc invs c with
      | none =>
        have hnotmem : c ∉ invs.map Prod.fst := (lookupAssoc_none_iff invs c).1 hfresh
        have hcval : c = invs.length + 1 := by
          rcases hc with h1 | h2
          · exact absurd (by
              rw [hkeys]
              exact List.mem_range'_1.2 ⟨hc1, by omega⟩) hnotmem
          · exact h2
        rw [assignMpptsGo_cons_fresh (some M) mpptsPer m rest c localC invs hgo hfresh]
        have hkeys' : (invs ++ [(c, [(1, m)])]).map Prod.fst =
            List.range' 1 (invs ++ [(c, [(1, m)])]).length := by
          rw [List.map_append, hkeys]
          simp only [List.map_cons, List.map_nil, List.length_append,
            List.length_cons, List.length_nil]
          rw [List.range'_1_concat]
          rw [hcval]
          simp [Nat.add_comm]
        have hlen' : (invs ++ [(c, [(1, m)])]).length = invs.length + 1 := by simp
        by_cases hmp : 1 ≥ mpptsPer
        · rw [if_pos hmp]
          exact ih (c + 1) 1 _ hkeys' (Or.inr (by rw [hlen']; omega)) (by omega)
            (by rw [hlen']; omega)
        · rw [if_neg hmp]
          exact ih c 1 _ hkeys' (Or.inl (by rw [hlen']; omega)) hc1
            (by rw [hlen']; omega)
      | some inner =>
        have hmem : c ∈ invs.map Prod.fst := by
          by_contra hno
          rw [(lookupAssoc_none_iff invs c).2 hno] at hfresh
          exact Option.noConfusion hfresh
        have hclen : c ≤ invs.length := by
          rw [hkeys] at hmem
          have := List.mem_range'_1.1 hmem
          omega
        have hcval : c = invs.length := by omega
        rw [assignMpptsGo_cons_stay (some M) mpptsPer m rest c localC invs inner
          hgo hfresh]
        have hlen' := updateAssocSet_length_of_mem invs c
          (updateAssocSet inner localC m) hmem
        have hkeys' : (updateAssocSet invs c (updateAssocSet inner localC m)).map
            Prod.fst = List.range' 1
              (updateAssocSet invs c (updateAssocSet inner localC m)).length := by
          rw [updateAssocSet_keys_of_mem invs c _ hmem, hlen', hkeys]
        by_cases hmp : (updateAssocSet inner localC m).length ≥ mpptsPer
        · rw [if_pos hmp]
          exact ih (c + 1) localC _ hkeys' (Or.inr (by rw [hlen']; omega))
            (by omega) (by rw [hlen']; omega)
        · rw [if_neg hmp]
          exact ih c localC _ hkeys' (Or.inl (by rw [hlen']; omega)) hc1
            (by rw [hlen']; omega)

/-- The MPPTs stored in the nested inverter structure, in dict order. -/
def nestedMppts (invs : InvStruct) : List (List (List String)) :=
  invs.flatMap (fun e => e.2.map (·.2))

theorem nestedMppts_length : ∀ (conns : InvStruct),
    (nestedMppts conns).length = (conns.map (fun e => e.2.length)).sum := by
  intro conns
  induction conns with
  | nil => rfl
  | cons e rest ih =>
    rw [nestedMppts, List.flatMap_cons, List.length_append, List.length_map,
      ← nestedMppts, ih, List.map_cons, List.sum_cons]

/-- Uncapped loop with one MPPT per inverter: every MPPT gets its own fresh
inverter and nothing is overwritten or dropped. -/
theorem assignMpptsGo_uncapped_one :
    ∀ (ms : List (List (List String))) (localC : ℕ) (invs : InvStruct),
      invs.map Prod.fst = List.range' 1 invs.length →
      nestedMppts (assignMpptsGo none 1 ms (invs.length + 1) localC invs) =
        nestedMppts invs ++ ms := by
  intro ms
  induction ms with
  | nil =>
    intro localC invs _
    simp [assignMpptsGo]
  | cons m rest ih =>
    intro localC invs hkeys
    have hnotmem : (invs.length + 1) ∉ invs.map Prod.fst := by
      rw [hkeys]
      intro hmem
      have := List.mem_range'_1.1 hmem
      omega
    have hfresh : lookupAssoc invs (invs.length + 1) = none :=
      (lookupAssoc_none_iff _ _).2 hnotmem
    have hgo : ∀ M', (none : Option ℕ) = some M' → ¬ invs.length + 1 > M' := by
      intro M' hM'
      exact Option.noConfusion hM'
    rw [assignMpptsGo_cons_fresh none 1 m rest (invs.length + 1) localC invs
      hgo hfresh]
    rw [if_pos (by omega)]
    have hkeys' : (invs ++ [(invs.length + 1, [(1, m)])]).map Prod.fst =
        List.range' 1 (invs ++ [(invs.length + 1, [(1, m)])]).length := by
      rw [List.map_append, hkeys]
      simp only [List.map_cons, List.map_nil, List.length_append,
        List.length_cons, List.length_nil]
      rw [List.range'_1_concat]
      simp [Nat.add_comm]
    have hlen' : (invs ++ [(invs.length + 1, [(1, m)])]).length = invs.length + 1 := by
      simp
    have hstep := ih 1 (invs ++ [(invs.length + 1, [(1, m)])]) hkeys'
    rw [hlen'] at hstep
    rw [hstep, nestedMppts, List.flatMap_append, ← nestedMppts]
    simp [nestedMppts]

/-- In non-validator mode the produced inverter count respects
`number_of_inverters`. -/
theorem assign_mppts_to_inverters_cap (inv : InverterSpecs)
    (mppts : List (List (List String))) :
    (assign_mppts_to_inverters inv false mppts).length ≤ inv.numberOfInverters :=
  assignMpptsGo_cap inv.numberOfMppts inv.numberOfInverters mppts 1 1 []
    rfl (Or.inr rfl) (by omega) (by simp)

/-- In validator mode with one MPPT per inverter, the nested structure keeps
exactly the assigned MPPT list. -/
theorem assign_mppts_to_inverters_uncapped (inv : InverterSpecs)
    (mppts : List (List (List String))) (h1 : inv.numberOfMppts = 1) :
    nestedMppts (assign_mppts_to_inverters inv true mppts) = mppts := by
  have hdef : assign_mppts_to_inverters inv true mppts =
      assignMpptsGo none inv.numberOfMppts mppts 1 1 [] := rfl
  rw [hdef, h1]
  have h := assignMpptsGo_uncapped_one mppts 1 [] rfl
  simpa [nestedMppts] using h

/-- Re-derivation of the summary counts from the nested
inverter → MPPT → string → panel-id structure:
`(total_panels_stringed, total_strings, total_mppts_used)`. -/
def derivedCounts (conns : InvStruct) : ℕ × ℕ × ℕ :=
  (((nestedMppts conns).flatten.map List.length).sum,
   (nestedMppts conns).flatten.length,
   (nestedMppts conns).length)

/-- A zero parallel capacity crashes the fold step (`range(0, n, 0)`). -/
theorem assignStep_crash (panels : List PanelSpecs) (maxCur : ℚ)
    (ms : List (List (List String))) (g : ℕ × List (List String))
    (g0 : List String) (gt : List (List String)) (hg2 : g.2 = g0 :: gt)
    (hmp : (if 0 < (getPanel panels (g0.headD "")).imppStc then
        pyTrunc (qdiv maxCur (getPanel panels (g0.headD "")).imppStc) else 1) = 0) :
    assignStep panels maxCur (some ms) g = none := by
  rw [assignStep]
  simp only [hg2]
  rw [hmp, pyRangeChunks, if_pos rfl]

end Stringer

namespace Sso

/-! ### Frame lemmas on `_create_contiguous_strings` -/

theorem markAssigned_spec (panels : List PanelState) (ids : List String) :
    (markAssigned panels ids).map (·.spec) = panels.map (·.spec) := by
  rw [markAssigned, List.map_map]
  apply List.map_congr_left
  intro st _
  by_cases h : st.spec.panelId ∈ ids
  · simp [h]
  · simp [h]

theorem createContiguousGo_spec (ideal minP maxP : ℕ) :
    ∀ (fuel : ℕ) (ps : List PanelState) (strs : List StringData),
      ((createContiguousGo ideal minP maxP fuel ps strs).2).map (·.spec) =
        ps.map (·.spec) := by
  intro fuel
  induction fuel with
  | zero => intro ps strs; rfl
  | succ k ih =>
    intro ps strs
    simp only [createContiguousGo]
    split
    · rfl
    · split
      · rfl
      · split
        · rw [ih, markAssigned_spec]
        · rw [ih, markAssigned_spec]

/-- The seed-and-grow pass leaves the underlying `PanelSpecs` objects (ids,
electrical data, coordinates) untouched; only `is_assigned` flags change. -/
theorem create_contiguous_strings_spec (panels : List PanelState)
    (ideal minP maxP : ℕ) :
    ((create_contiguous_strings panels ideal minP maxP).2).map (·.spec) =
      panels.map (·.spec) := by
  rw [create_contiguous_strings, createContiguousGo_spec, List.map_map]
  apply List.map_congr_left
  intro st _
  rfl

end Sso

/-! ## Concrete fixtures used by the counterexamples and witnesses -/

/-- A stock panel: Voc 50 V, Isc 14 A, Vmpp 40 V, Impp 10 A. -/
def fxPanel (pid roof : String) (x y : ℚ) : PanelSpecs :=
  { panelId := pid, vocStc := 50, iscStc := 14, vmppStc := 40, imppStc := 10,
    roofPlaneId := roof, cx := x, cy := y }

/-- A stock inverter: 600 V max DC, MPPT window 90–560 V, 25 A per MPPT,
one MPPT, one inverter, 5 kW AC. -/
def fxInv : InverterSpecs :=
  { maxDcVoltage := 600, mpptMinVoltage := 90, mpptMaxVoltage := 560,
    maxDcCurrentPerMppt := 25, maxDcCurrentPerString := 20, numberOfMppts := 1,
    startupVoltage := 60, ratedAcPowerW := 5000, numberOfInverters := 1 }

/-- Two MPPTs per inverter and a 15 A MPPT current limit. -/
def fxInv2 : InverterSpecs :=
  { fxInv with numberOfMppts := 2, maxDcCurrentPerMppt := 15 }

/-- A 150 V max-DC bus with a 300 V MPPT minimum: infeasible bounds. -/
def fxInvC3 : InverterSpecs :=
  { fxInv with maxDcVoltage := 150, mpptMinVoltage := 300, mpptMaxVoltage := 600 }

def fxTemp : TemperatureData :=
  { minTempC := 0, maxTempC := 35, avgHighTempC := 30, avgLowTempC := 5 }

def fxTemp45 : TemperatureData := { fxTemp with maxTempC := 45 }

/-- Three panels in one proximity cluster on roof plane `r1`. -/
def fxPanels3 : List PanelSpecs :=
  [fxPanel "A" "r1" 0 0, fxPanel "B" "r1" 0 50, fxPanel "C" "r1" 0 100]

/-- Six panels on roof plane `r1`. -/
def fxPanels6 : List PanelSpecs :=
  fxPanels3 ++ [fxPanel "D" "r1" 30 0, fxPanel "E" "r1" 30 50, fxPanel "F" "r1" 30 100]

/-- Two straggler panels on roof plane `r1`. -/
def fxPanels2 : List PanelSpecs := [fxPanel "D" "r1" 0 0, fxPanel "E" "r1" 0 10]

/-- 21 panels: 21 = 2 × 9 + 3 against an ideal length of 9. -/
def fxPanels21 : List PanelSpecs :=
  (List.range 21).map (fun i => fxPanel ("p" ++ toString i) "r1" 0 ((i : ℚ) * 10))

/-- Two unassigned panel states. -/
def fxStates2 : List Sso.PanelState :=
  [{ spec := fxPanel "A" "r1" 0 0, isAssigned := false },
   { spec := fxPanel "B" "r1" 0 10, isAssigned := false }]

/-- Two length-3 strings for the MPPT packer. -/
def fxStrA : Sso.StringData :=
  { length := 3, panels := ["A1", "A2", "A3"], roofPlane := "r1", stype := "modulus_ideal" }

def fxStrB : Sso.StringData :=
  { length := 3, panels := ["B1", "B2", "B3"], roofPlane := "r1", stype := "modulus_ideal" }

/-! ## The claims -/

namespace Stringer

/-- C1 (counterexample).  Full partition fails: three panels of roof plane
`r1`, strung successfully into one string, vanish from the final plan when
the rebalancing step finds no similar-roof group for `r1` (`roofPlanes = []`):
the plan ends with 3 panels, 0 string entries and 0 straggler warnings, so
panel id `A` appears nowhere. -/
theorem c1_dropped_panels_cex :
    (optimize fxPanels3 fxInv fxTemp [] false).map
      (fun r => (r.formattedOutput.summary.totalPanels,
        r.formattedOutput.strings.length,
        r.formattedOutput.stragglerWarnings.length)) = some (3, 0, 0) := by
  decide

/-- C1 (amended).  The partition invariant that does hold at the rebalancing
step: `_rebalance_strings_for_parallel` conserves exactly the panels of
strings whose roof plane lies in a similar-roof group (their ids come back as
a permutation), and drops every string whose roof plane has no group, so the
full-partition claim fails exactly for the dropped strings. -/
theorem c1_partition_amended (panels : List PanelSpecs)
    (roofPlanes : List (String × ℚ × ℚ)) (minP maxP : ℤ)
    (strings : List (List String)) (hm1 : 1 ≤ minP) :
    ((rebalance_strings_for_parallel panels roofPlanes minP maxP strings).flatten).Perm
      ((strings.filter (fun s =>
        (roofToGroup roofPlanes
          (getPanel panels (s.headD "")).roofPlaneId).isSome)).flatten) :=
  rebalance_strings_for_parallel_flatten_perm panels roofPlanes minP maxP strings hm1

/-- C1 (witness): the amended conservation at a concrete input whose roof
plane does belong to a similar-roof group. -/
theorem c1_partition_witness :
    ((rebalance_strings_for_parallel fxPanels3 [("r1", 10, 20)] 3 9
        [["A", "B", "C"]]).flatten).Perm
      (([["A", "B", "C"]].filter (fun s =>
        (roofToGroup [("r1", 10, 20)]
          (getPanel fxPanels3 (s.headD "")).roofPlaneId).isSome)).flatten) :=
  c1_partition_amended fxPanels3 [("r1", 10, 20)] 3 9 [["A", "B", "C"]] (by decide)

end Stringer

namespace Sso

/-- C2 (counterexample).  `_handle_stragglers` emits a `straggler_pair`
string of length 2 — below its own hardcoded minimum of 3 — and that entry
is a regular member of the string list, which `_greedy_mppt_assignment`
packs onto an MPPT like any other string: flagged entries are not surfaced
separately from regular strings. -/
theorem c2_straggler_packed_cex :
    (handle_stragglers fxPanels2 fxPanels2).map (fun s => (s.stype, s.length)) =
      [("straggler_pair", 2)] ∧
    greedy_mppt_assignment 14 25 (handle_stragglers fxPanels2 fxPanels2) =
      [[{ length := 2, panels := ["D", "E"], roofPlane := "r1",
          stype := "straggler_pair" }]] := by
  decide

/-- C2 (amended).  The length invariant that does hold, at the modulus
partitioner: every string `_create_modulus_strings` emits satisfies
`min_panels ≤ len ≤ max_panels`, and its straggler output always holds
fewer than `min_panels` panels.  The straggler-typed entries produced later
by `_handle_stragglers` are below that bound but are returned inside the
ordinary string list (see the counterexample), not surfaced separately. -/
theorem c2_bounds_amended (panels : List PanelSpecs) (ideal minP maxP : ℕ)
    (hm1 : 1 ≤ minP) (hmi : minP ≤ ideal) (him : ideal ≤ maxP) :
    (∀ s ∈ (create_modulus_strings panels ideal minP maxP).1,
        minP ≤ s.length ∧ s.length ≤ maxP) ∧
      (create_modulus_strings panels ideal minP maxP).2.length < minP := by
  refine ⟨?_, create_modulus_straggler_count panels ideal minP maxP hm1
    (le_trans hmi him)⟩
  intro s hs
  have h := create_modulus_bounds panels ideal minP maxP hm1 hmi him s hs
  exact ⟨h.1, h.2.1⟩

/-- C2 (witness): the amended bounds on 21 panels with
`(ideal, min, max) = (9, 3, 9)`. -/
theorem c2_bounds_witness :
    (∀ s ∈ (create_modulus_strings fxPanels21 9 3 9).1,
        3 ≤ s.length ∧ s.length ≤ 9) ∧
      (create_modulus_strings fxPanels21 9 3 9).2.length < 3 :=
  c2_bounds_amended fxPanels21 9 3 9 (by decide) (by decide) (by decide)

/-- C3 (counterexample).  On an infeasible configuration (150 V bus, 300 V
MPPT minimum) `_greedy_string_optimization`'s bound computation returns the
plain triple `(min, max, ideal) = (10, 3, 10)` — `max < min` and
`ideal > max` — with no fatal error: infeasibility is not signalled and the
guarantee `min ≤ ideal ≤ max` fails. -/
theorem c3_infeasible_cex :
    calc_string_bounds fxInvC3 30 50 = (10, 3, 10) ∧
      (calc_string_bounds fxInvC3 30 50).2.1 <
        (calc_string_bounds fxInvC3 30 50).1 ∧
      (calc_string_bounds fxInvC3 30 50).2.1 <
        (calc_string_bounds fxInvC3 30 50).2.2 := by
  decide

/-- C3 (amended).  The bound formulas as implemented:
`min = ceil(mppt_min / minV)`,
`max = min(floor(max_dc / maxV), floor(mppt_max / minV))`,
`ideal = max(min, min(round(0.85 · mppt_max / minV), max))`; the clamp
guarantees `min ≤ ideal ≤ max` only when the configuration is feasible
(`min ≤ max`), and the function is total — an infeasible configuration is
returned as a plain triple, never signalled as an error. -/
theorem c3_bounds_amended (inv : InverterSpecs) (minV maxV : ℚ) :
    calc_string_bounds inv minV maxV =
      (pyCeil (qdiv inv.mpptMinVoltage minV),
       min (pyFloor (qdiv inv.maxDcVoltage maxV))
         (pyFloor (qdiv inv.mpptMaxVoltage minV)),
       max (pyCeil (qdiv inv.mpptMinVoltage minV))
         (min (pyRound (qdiv (qmul inv.mpptMaxVoltage (mkRat 85 100)) minV))
           (min (pyFloor (qdiv inv.maxDcVoltage maxV))
             (pyFloor (qdiv inv.mpptMaxVoltage minV))))) ∧
    ((calc_string_bounds inv minV maxV).1 ≤ (calc_string_bounds inv minV maxV).2.1 →
      (calc_string_bounds inv minV maxV).1 ≤ (calc_string_bounds inv minV maxV).2.2 ∧
        (calc_string_bounds inv minV maxV).2.2 ≤ (calc_string_bounds inv minV maxV).2.1) := by
  constructor
  · rfl
  · intro hfeas
    constructor
    · exact le_max_left _ _
    · exact max_le hfeas (min_le_right _ _)

/-- C4 (counterexample).  The packer's admission check uses the panels'
short-circuit current `isc_stc`, not `impp_stc` as claimed: with Isc 14 A,
Impp 10 A and a 25 A MPPT limit the source keeps two length-3 strings on
separate MPPTs (2 × 14 > 25) while the spec's Impp rule would pair them
(2 × 10 ≤ 25); and a lone string whose per-panel current exceeds the limit
still gets its own MPPT unchecked, violating the claimed per-MPPT bound. -/
theorem c4_isc_vs_impp_cex :
    greedy_mppt_assignment 14 25 [fxStrA, fxStrB] = [[fxStrA], [fxStrB]] ∧
    mpptPackerSpecImpp 10 25 [fxStrA, fxStrB] = [[fxStrA, fxStrB]] ∧
    (greedy_mppt_assignment 30 25 [fxStrA]).any
      (fun m => decide (¬ qmul (mkRat m.length 1) 30 ≤ 25)) = true := by
  decide

/-- C4 (amended).  The invariant `_greedy_mppt_assignment` does maintain:
every MPPT holds strings of one length, and every MPPT with at least two
parallel strings satisfies `count × isc ≤ max_dc_current_per_mppt` — the
current check uses `isc_stc` (not Impp), and single-string MPPTs are never
checked at all. -/
theorem c4_mppt_invariant_amended (isc maxCur : ℚ) (strings : List StringData) :
    MpptInv isc maxCur (greedy_mppt_assignment isc maxCur strings) :=
  greedy_mppt_assignment_inv isc maxCur strings

/-- C5.  The heuristic partitioner: with `1 ≤ min ≤ ideal ≤ max` and
`panel_count = q × ideal + r`, `_create_modulus_strings` emits exactly `q`
strings of exactly `ideal` length; every panel id lands either in a string
or in the straggler output (nothing is silently dropped); and the final
straggler remainder always holds fewer than `min_panels` panels. -/
theorem c5_heuristic_partitioner (panels : List PanelSpecs) (ideal minP maxP : ℕ)
    (hm1 : 1 ≤ minP) (hmi : minP ≤ ideal) (him : ideal ≤ maxP) :
    ((create_modulus_strings panels ideal minP maxP).1.countP
        (fun s => decide (s.length = ideal))) = panels.length / ideal ∧
    ((create_modulus_strings panels ideal minP maxP).1.flatMap (·.panels)) ++
        (create_modulus_strings panels ideal minP maxP).2.map (·.panelId) =
      panels.map (·.panelId) ∧
    (create_modulus_strings panels ideal minP maxP).2.length < minP :=
  ⟨create_modulus_countP panels ideal minP maxP hm1 hmi,
   create_modulus_join panels ideal minP maxP,
   create_modulus_straggler_count panels ideal minP maxP hm1 (le_trans hmi him)⟩

/-- C5 (witness): the partitioner on 21 = 2 × 9 + 3 panels. -/
theorem c5_partitioner_witness :
    ((create_modulus_strings fxPanels21 9 3 9).1.countP
        (fun s => decide (s.length = 9))) = fxPanels21.length / 9 ∧
    ((create_modulus_strings fxPanels21 9 3 9).1.flatMap (·.panels)) ++
        (create_modulus_strings fxPanels21 9 3 9).2.map (·.panelId) =
      fxPanels21.map (·.panelId) ∧
    (create_modulus_strings fxPanels21 9 3 9).2.length < 3 :=
  c5_heuristic_partitioner fxPanels21 9 3 9 (by decide) (by decide) (by decide)

end Sso

namespace Stringer

/-- C6 (counterexample).  Overflow is dropped silently, not reported: with a
one-inverter cap and one MPPT per inverter, the second MPPT (panels `D`,
`E`, `F`) vanishes — the nested structure keeps only inverter 1, no string
entry of the final plan mentions panel `D`, and the straggler-warning list
stays empty (`_track_disconnected_panels` is never called anywhere). -/
theorem c6_silent_drop_cex :
    assign_mppts_to_inverters fxInv false [[["A", "B", "C"]], [["D", "E", "F"]]] =
      [(1, [(1, [["A", "B", "C"]])])] ∧
    (buildStringEntries fxPanels6 (assign_mppts_to_inverters fxInv false
      [[["A", "B", "C"]], [["D", "E", "F"]]])).all
        (fun e => decide ("D" ∉ e.panelIds)) = true ∧
    (build_final_output fxPanels6 (assign_mppts_to_inverters fxInv false
        [[["A", "B", "C"]], [["D", "E", "F"]]])
      [["A", "B", "C"], ["D", "E", "F"]] []).stragglerWarnings = [] := by
  decide

/-- C6 (amended).  What does hold of `_assign_mppts_to_inverters`: in
non-validator mode the inverter count never exceeds `number_of_inverters`,
and in validator mode the count is uncapped — with one MPPT per inverter
every MPPT is kept.  MPPTs beyond the cap are silently discarded: they are
never reported as disconnected (the reporting helper is dead code). -/
theorem c6_inverter_cap_amended (inv : InverterSpecs)
    (mppts : List (List (List String))) :
    (assign_mppts_to_inverters inv false mppts).length ≤ inv.numberOfInverters ∧
      (inv.numberOfMppts = 1 →
        nestedMppts (assign_mppts_to_inverters inv true mppts) = mppts) :=
  ⟨assign_mppts_to_inverters_cap inv mppts,
   fun h1 => assign_mppts_to_inverters_uncapped inv mppts h1⟩

end Stringer

namespace V2

/-- C7.  The power validator's temperature coefficient is `+0.00446` where
every other module uses `-0.00446`, so its `power_per_panel` rises with
heat: at 45 °C the code computes 435.68 W (= 10892/25) per 40 V / 10 A
panel, strictly above the 364.32 W (= 9108/25) that the claimed
`Vmpp(hot) × Impp` (with the stringer's own hot-temperature Vmpp) yields. -/
theorem c7_power_sign_bug :
    (mkPowerValidator fxInv (fxPanel "A" "r1" 0 0) fxTemp45
        (mkRat 5 4) (mkRat 3 2)).powerPerPanel = mkRat 10892 25 ∧
    qmul (Stringer.vmpp_hot (fxPanel "A" "r1" 0 0) fxTemp45)
        (fxPanel "A" "r1" 0 0).imppStc = mkRat 9108 25 ∧
    mkRat 9108 25 < (mkPowerValidator fxInv (fxPanel "A" "r1" 0 0) fxTemp45
        (mkRat 5 4) (mkRat 3 2)).powerPerPanel := by
  decide

end V2

namespace Stringer

/-- C8 (counterexample).  The summary round-trip fails with two MPPTs per
inverter: the local MPPT counter is never incremented, so the second MPPT
overwrites the first inside inverter 1.  Re-deriving the counts from the
nested structure yields `(3, 1, 1)` while the plan's own summary stores
`(6, 2, 1)`. -/
theorem c8_overwrite_cex :
    assign_strings_to_mppts fxPanels6 15 [["A", "B", "C"], ["D", "E", "F"]] =
      some [[["A", "B", "C"]], [["D", "E", "F"]]] ∧
    derivedCounts (assign_mppts_to_inverters fxInv2 true
      [[["A", "B", "C"]], [["D", "E", "F"]]]) = (3, 1, 1) ∧
    ((build_final_output fxPanels6 (assign_mppts_to_inverters fxInv2 true
        [[["A", "B", "C"]], [["D", "E", "F"]]])
        [["A", "B", "C"], ["D", "E", "F"]] []).summary.totalPanelsStringed,
     (build_final_output fxPanels6 (assign_mppts_to_inverters fxInv2 true
        [[["A", "B", "C"]], [["D", "E", "F"]]])
        [["A", "B", "C"], ["D", "E", "F"]] []).summary.totalStrings,
     (build_final_output fxPanels6 (assign_mppts_to_inverters fxInv2 true
        [[["A", "B", "C"]], [["D", "E", "F"]]])
        [["A", "B", "C"], ["D", "E", "F"]] []).summary.totalMpptsUsed) =
      (6, 2, 1) := by
  decide

/-- C8 (amended).  The round-trip does hold when the MPPT-overwrite bug
cannot fire: with one MPPT per inverter (validator mode, so no inverter is
capped away) and per-string currents within the MPPT limit, re-deriving
`(total_panels_stringed, total_strings, total_mppts_used)` from the nested
inverter → MPPT → string → panel-id structure equals the summary block of
`_build_final_output`. -/
theorem c8_roundtrip_amended (panels : List PanelSpecs) (inv : InverterSpecs)
    (strings : List (List String)) (warnings : List StragglerWarning)
    (mppts : List (List (List String)))
    (h1 : inv.numberOfMppts = 1)
    (hok : ∀ s ∈ strings, ImppOk panels inv.maxDcCurrentPerMppt s)
    (hm : assign_strings_to_mppts panels inv.maxDcCurrentPerMppt strings =
      some mppts) :
    derivedCounts (assign_mppts_to_inverters inv true mppts) =
      ((build_final_output panels (assign_mppts_to_inverters inv true mppts)
          strings warnings).summary.totalPanelsStringed,
       (build_final_output panels (assign_mppts_to_inverters inv true mppts)
          strings warnings).summary.totalStrings,
       (build_final_output panels (assign_mppts_to_inverters inv true mppts)
          strings warnings).summary.totalMpptsUsed) := by
  obtain ⟨mppts2, hsome, hperm⟩ := assign_strings_to_mppts_flatten panels
    inv.maxDcCurrentPerMppt strings hok
  rw [hm] at hsome
  injection hsome with he
  subst he
  have hnested : nestedMppts (assign_mppts_to_inverters inv true mppts) = mppts :=
    assign_mppts_to_inverters_uncapped inv mppts h1
  show (((nestedMppts (assign_mppts_to_inverters inv true mppts)).flatten.map
      List.length).sum,
    (nestedMppts (assign_mppts_to_inverters inv true mppts)).flatten.length,
    (nestedMppts (assign_mppts_to_inverters inv true mppts)).length) =
    ((strings.map List.length).sum, strings.length,
     ((assign_mppts_to_inverters inv true mppts).map (fun e => e.2.length)).sum)
  rw [nestedMppts_length, hnested]
  simp only [Prod.mk.injEq]
  exact ⟨(hperm.map List.length).sum_eq, hperm.length_eq, trivial⟩

/-- C8 (witness): the amended round-trip on one string of three panels. -/
theorem c8_roundtrip_witness :
    derivedCounts (assign_mppts_to_inverters fxInv true [[["A", "B", "C"]]]) =
      ((build_final_output fxPanels3 (assign_mppts_to_inverters fxInv true
          [[["A", "B", "C"]]]) [["A", "B", "C"]] []).summary.totalPanelsStringed,
       (build_final_output fxPanels3 (assign_mppts_to_inverters fxInv true
          [[["A", "B", "C"]]]) [["A", "B", "C"]] []).summary.totalStrings,
       (build_final_output fxPanels3 (assign_mppts_to_inverters fxInv true
          [[["A", "B", "C"]]]) [["A", "B", "C"]] []).summary.totalMpptsUsed) :=
  c8_roundtrip_amended fxPanels3 fxInv [["A", "B", "C"]] [] [[["A", "B", "C"]]]
    (by decide) (by decide) (by decide)

end Stringer

namespace Sso

/-- C9 (counterexample).  Panel objects are mutated: one pass of
`_create_contiguous_strings` flips `is_assigned` to `True` on the panels it
wires (via `_find_next_seed` / the growth loop), so the shared panel list's
attribute state differs after the call. -/
theorem c9_mutation_cex :
    ((create_contiguous_strings fxStates2 2 2 9).2).map (·.isAssigned) ≠
      fxStates2.map (·.isAssigned) := by
  decide

/-- C9 (amended).  What is preserved: `_create_contiguous_strings` never
alters the underlying `PanelSpecs` data (ids, electrical ratings,
coordinates, roof plane) — only the `is_assigned` attribute it plants on
the shared panel objects changes, contradicting the claim that membership
is tracked externally only. -/
theorem c9_frame_amended (panels : List Sso.PanelState) (ideal minP maxP : ℕ) :
    ((create_contiguous_strings panels ideal minP maxP).2).map (·.spec) =
      panels.map (·.spec) :=
  create_contiguous_strings_spec panels ideal minP maxP

end Sso

namespace Stringer

/-- C10.  The implicit precondition of `_assign_strings_to_mppts`: on any
non-empty string list whose head panels' Impp exceeds the (nonnegative) MPPT
current limit, `int(max_dc_current_per_mppt / impp)` is 0 and the
`range(0, n, 0)` call raises `ValueError` (modelled `none`), so the
optimizer crashes; and under the precondition `Impp ≤ max_dc_current_per_mppt`
(for every positive head-panel Impp) the function is total. -/
theorem c10_capacity_crash (panels : List PanelSpecs) (maxCur : ℚ)
    (strings : List (List String)) :
    (strings ≠ [] → 0 ≤ maxCur →
      (∀ s ∈ strings, maxCur < (getPanel panels (s.headD "")).imppStc) →
      assign_strings_to_mppts panels maxCur strings = none) ∧
    ((∀ s ∈ strings, ImppOk panels maxCur s) →
      (assign_strings_to_mppts panels maxCur strings).isSome) := by
  constructor
  · intro hne hnn hall
    obtain ⟨s, rest, rfl⟩ : ∃ s rest, strings = s :: rest := by
      cases strings with
      | nil => exact absurd rfl hne
      | cons a b => exact ⟨a, b, rfl⟩
    have hnemp : ¬ (s :: rest).isEmpty = true := by simp
    rw [assign_strings_to_mppts_eq_fold panels maxCur (s :: rest) hnemp]
    obtain ⟨t, Gs, hG⟩ := groupByKey_first_shape List.length s rest
    rw [hG, List.foldl_cons]
    have himpp := hall s (List.mem_cons_self _ _)
    have hpos : 0 < (getPanel panels (s.headD "")).imppStc :=
      lt_of_le_of_lt hnn himpp
    have hq0 : (0 : ℚ) ≤ qdiv maxCur (getPanel panels (s.headD "")).imppStc := by
      rw [qdiv_eq]
      exact div_nonneg hnn (le_of_lt hpos)
    have hq1 : qdiv maxCur (getPanel panels (s.headD "")).imppStc < 1 := by
      rw [qdiv_eq]
      exact (div_lt_one hpos).2 himpp
    have hmp : (if 0 < (getPanel panels (s.headD "")).imppStc then
        pyTrunc (qdiv maxCur (getPanel panels (s.headD "")).imppStc) else 1) = 0 := by
      rw [if_pos hpos, pyTrunc, if_pos hq0, ratFloor_eq]
      exact Int.floor_eq_zero_iff.2 (Set.mem_Ico.2 ⟨hq0, hq1⟩)
    rw [assignStep_crash panels maxCur [] (s.length, s :: t) s t rfl hmp]
    exact assignStep_none panels maxCur Gs
  · intro hok
    obtain ⟨m, hm, _⟩ := assign_strings_to_mppts_flatten panels maxCur strings hok
    rw [hm]
    rfl

end Stringer

end AutoStringing
